import Mathlib

/-!
# Metering pipeline of the current / voltage sensor node

Shallow embedding of `current_voltage_sensor/main.cpp` (three variants of the
same program) and the properties of its sampling filter, RMS estimator, power
calculator, payload builder and uplink gate.

## Numbers

A C `double` is embedded as `Dbl α`: either a finite value of an ordered field
`α`, one of the two infinities, or NaN.  Arithmetic on finite values is exact
(no rounding, no overflow to infinity); the special values follow IEEE-754.
The sign of a zero is not tracked: a zero divisor is treated as `+0`, so the
sign of an infinity produced by a division by zero is the sign of the
numerator.  The square root of the C library is a parameter `rt : α → α`
applied to non-negative finite arguments; `Real.sqrt` is the instance for
exact real arithmetic.

Where rounding, overflow or underflow decides what the program returns, the
same functions are embedded a second time over `F64`, whose arithmetic rounds
every exact result to IEEE-754 binary64 (round to nearest, ties to even, with
subnormals and overflow to infinity); these definitions live in the namespace
`B64` and are evaluated on concrete inputs.

Machine integers (`uint`, `uint32_t`, the 12-bit converter reading) are
natural numbers, with an explicit reduction modulo `2 ^ 32` where the program
relies on wrap-around.
-/

namespace Freedm

/-! ## The embedding of `double` -/

/-- Value classes of a C `double`: finite, plus infinity, minus infinity, NaN. -/
inductive Dbl (α : Type) where
  | fin (x : α)
  | pinf
  | ninf
  | nan
  deriving DecidableEq

variable {α : Type} [LinearOrderedField α]

/-- Result of a division by zero or of a product with an infinity, as a
function of the finite operand `a`: NaN for `a = 0`, else the infinity that has
the sign of `a`. -/
def Dbl.inf_of_sign (a : α) : Dbl α :=
  if a = 0 then Dbl.nan else if 0 < a then Dbl.pinf else Dbl.ninf

/-- Unary minus of a `double`. -/
def Dbl.neg : Dbl α → Dbl α
  | Dbl.fin a => Dbl.fin (-a)
  | Dbl.pinf => Dbl.ninf
  | Dbl.ninf => Dbl.pinf
  | Dbl.nan => Dbl.nan

/-- Addition of two `double`s. -/
def Dbl.add : Dbl α → Dbl α → Dbl α
  | Dbl.fin a, Dbl.fin b => Dbl.fin (a + b)
  | Dbl.fin _, Dbl.pinf => Dbl.pinf
  | Dbl.fin _, Dbl.ninf => Dbl.ninf
  | Dbl.pinf, Dbl.fin _ => Dbl.pinf
  | Dbl.pinf, Dbl.pinf => Dbl.pinf
  | Dbl.pinf, Dbl.ninf => Dbl.nan
  | Dbl.ninf, Dbl.fin _ => Dbl.ninf
  | Dbl.ninf, Dbl.pinf => Dbl.nan
  | Dbl.ninf, Dbl.ninf => Dbl.ninf
  | Dbl.nan, _ => Dbl.nan
  | _, Dbl.nan => Dbl.nan

/-- Subtraction of two `double`s. -/
def Dbl.sub (x y : Dbl α) : Dbl α := Dbl.add x (Dbl.neg y)

/-- Multiplication of two `double`s. -/
def Dbl.mul : Dbl α → Dbl α → Dbl α
  | Dbl.fin a, Dbl.fin b => Dbl.fin (a * b)
  | Dbl.fin a, Dbl.pinf => Dbl.inf_of_sign a
  | Dbl.fin a, Dbl.ninf => Dbl.inf_of_sign (-a)
  | Dbl.pinf, Dbl.fin b => Dbl.inf_of_sign b
  | Dbl.ninf, Dbl.fin b => Dbl.inf_of_sign (-b)
  | Dbl.pinf, Dbl.pinf => Dbl.pinf
  | Dbl.pinf, Dbl.ninf => Dbl.ninf
  | Dbl.ninf, Dbl.pinf => Dbl.ninf
  | Dbl.ninf, Dbl.ninf => Dbl.pinf
  | Dbl.nan, _ => Dbl.nan
  | _, Dbl.nan => Dbl.nan

/-- Division of two `double`s.  A finite value divided by zero is NaN when the
numerator is zero and an infinity otherwise; no trap is raised. -/
def Dbl.div : Dbl α → Dbl α → Dbl α
  | Dbl.fin a, Dbl.fin b => if b = 0 then Dbl.inf_of_sign a else Dbl.fin (a / b)
  | Dbl.fin _, Dbl.pinf => Dbl.fin 0
  | Dbl.fin _, Dbl.ninf => Dbl.fin 0
  | Dbl.pinf, Dbl.fin b => if 0 ≤ b then Dbl.pinf else Dbl.ninf
  | Dbl.ninf, Dbl.fin b => if 0 ≤ b then Dbl.ninf else Dbl.pinf
  | Dbl.pinf, Dbl.pinf => Dbl.nan
  | Dbl.pinf, Dbl.ninf => Dbl.nan
  | Dbl.ninf, Dbl.pinf => Dbl.nan
  | Dbl.ninf, Dbl.ninf => Dbl.nan
  | Dbl.nan, _ => Dbl.nan
  | _, Dbl.nan => Dbl.nan

/-- The library function `sqrt`: NaN on a negative argument, `rt` on a
non-negative finite one. -/
def Dbl.sqrt (rt : α → α) : Dbl α → Dbl α
  | Dbl.fin a => if a < 0 then Dbl.nan else Dbl.fin (rt a)
  | Dbl.pinf => Dbl.pinf
  | Dbl.ninf => Dbl.nan
  | Dbl.nan => Dbl.nan

/-- The library call `pow(x, 2)`. -/
def Dbl.pow2 (x : Dbl α) : Dbl α := Dbl.mul x x

/-- Conversion of an unsigned machine integer to `double`. -/
def Dbl.ofNat (n : ℕ) : Dbl α := Dbl.fin (n : α)

instance : Add (Dbl α) := ⟨Dbl.add⟩
instance : Sub (Dbl α) := ⟨Dbl.sub⟩
instance : Mul (Dbl α) := ⟨Dbl.mul⟩
instance : Div (Dbl α) := ⟨Dbl.div⟩

/-- A `double` is NaN. -/
def Dbl.isNaN : Dbl α → Bool
  | Dbl.nan => true
  | _ => false

/-- A `double` is one of the two infinities. -/
def Dbl.isInf : Dbl α → Bool
  | Dbl.pinf => true
  | Dbl.ninf => true
  | _ => false

/-! ## Constants of the program -/

/-- The macro `ADC_BITS`. -/
def ADC_BITS : ℕ := 12

/-- The macro `ADC_COUNTS`, `1 << ADC_BITS`. -/
def ADC_COUNTS : ℕ := 1 <<< ADC_BITS

/-- The macro `SUPPLY_VOLTAGE`. -/
def SUPPLY_VOLTAGE : ℕ := 3283

/-- The expression `(SUPPLY_VOLTAGE / 1000.0) / ADC_COUNTS` shared by the three
ratio computations. -/
def supply_per_count : Dbl α :=
  (Dbl.ofNat SUPPLY_VOLTAGE / Dbl.fin 1000) / Dbl.ofNat ADC_COUNTS

/-! ## Power calculator -/

/-- The function `calculate_apparent_power`. -/
def calculate_apparent_power (voltage_rms current_rms : Dbl α) : Dbl α :=
  voltage_rms * current_rms

/-- The function `calculate_reactive_power`:
`sqrt(pow(apparent_power, 2) - pow(active_power, 2))`. -/
def calculate_reactive_power (rt : α → α) (apparent_power active_power : Dbl α) : Dbl α :=
  Dbl.sqrt rt (Dbl.pow2 apparent_power - Dbl.pow2 active_power)

/-- The function `calculate_power_factor`: `active_power / apparent_power`. -/
def calculate_power_factor (active_power apparent_power : Dbl α) : Dbl α :=
  active_power / apparent_power

/-! ## Signal filter and RMS estimator -/

/-- Local state of the sampling loop of `current_get` / `voltage_get`: the
by-value parameter `offset_*`, the accumulator `sum_*` and the caller's sample
array. -/
structure SampleState (α : Type) where
  offset : Dbl α
  sum : Dbl α
  samples : ℕ → Dbl α

/-- One pass through the body of the `for` loop of `current_get`, at loop index
`sample`, with `raw` the value returned by `adc_read()`. -/
def current_step (s : SampleState α) (sample : ℕ) (raw : ℕ) : SampleState α :=
  let sample_current : Dbl α := Dbl.ofNat raw
  let offset_current := s.offset + ((sample_current - s.offset) / Dbl.fin 4096)
  let filtered_current := sample_current - offset_current
  let sqrt_current := filtered_current * filtered_current
  { offset := offset_current
    sum := s.sum + sqrt_current
    samples := Function.update s.samples sample filtered_current }

/-- The `for` loop of `current_get` after `n` iterations; `adc k` is the value
returned by the `k`-th call of `adc_read()` in this call. -/
def current_loop (adc : ℕ → ℕ) (offset_current : Dbl α) (current_samples : ℕ → Dbl α) :
    ℕ → SampleState α
  | 0 => { offset := offset_current, sum := Dbl.fin 0, samples := current_samples }
  | n + 1 => current_step (current_loop adc offset_current current_samples n) n (adc n)

/-- The function `current_get`: the returned RMS value and the contents of
`current_samples` after the call. -/
def current_get (rt : α → α) (adc : ℕ → ℕ) (num_samples : ℕ)
    (current_calibration offset_current : Dbl α) (current_samples : ℕ → Dbl α) :
    Dbl α × (ℕ → Dbl α) :=
  let s := current_loop adc offset_current current_samples num_samples
  let current_ratio := current_calibration * supply_per_count
  let current_rms := current_ratio * Dbl.sqrt rt (s.sum / Dbl.ofNat num_samples)
  (current_rms, s.samples)

/-- One pass through the body of the `for` loop of `voltage_get`. -/
def voltage_step (s : SampleState α) (sample : ℕ) (raw : ℕ) : SampleState α :=
  let sample_voltage : Dbl α := Dbl.ofNat raw
  let offset_voltage := s.offset + ((sample_voltage - s.offset) / Dbl.fin 4096)
  let filtered_voltage := sample_voltage - offset_voltage
  let sqrt_voltage := filtered_voltage * filtered_voltage
  { offset := offset_voltage
    sum := s.sum + sqrt_voltage
    samples := Function.update s.samples sample filtered_voltage }

/-- The `for` loop of `voltage_get` after `n` iterations. -/
def voltage_loop (adc : ℕ → ℕ) (offset_voltage : Dbl α) (voltage_samples : ℕ → Dbl α) :
    ℕ → SampleState α
  | 0 => { offset := offset_voltage, sum := Dbl.fin 0, samples := voltage_samples }
  | n + 1 => voltage_step (voltage_loop adc offset_voltage voltage_samples n) n (adc n)

/-- The function `voltage_get`: the returned RMS value and the contents of
`voltage_samples` after the call. -/
def voltage_get (rt : α → α) (adc : ℕ → ℕ) (num_samples : ℕ)
    (voltage_calibration offset_voltage : Dbl α) (voltage_samples : ℕ → Dbl α) :
    Dbl α × (ℕ → Dbl α) :=
  let s := voltage_loop adc offset_voltage voltage_samples num_samples
  let voltage_ratio := voltage_calibration * supply_per_count
  let voltage_rms := voltage_ratio * Dbl.sqrt rt (s.sum / Dbl.ofNat num_samples)
  (voltage_rms, s.samples)

/-! ## Active power -/

/-- The accumulator `sum_power` of `calculate_power` (variant `examples`) after
`n` iterations of its loop. -/
def power_loop (voltage_samples current_samples : ℕ → Dbl α)
    (voltage_ratio current_ratio : Dbl α) : ℕ → Dbl α
  | 0 => Dbl.fin 0
  | n + 1 =>
    let calibrated_voltage := voltage_samples n * voltage_ratio
    let calibrated_current := current_samples n * current_ratio
    power_loop voltage_samples current_samples voltage_ratio current_ratio n
      + calibrated_voltage * calibrated_current

/-- The function `calculate_power` of the variant `examples`, which scales every
sample by the calibration ratio of its channel. -/
def calculate_power (voltage_samples current_samples : ℕ → Dbl α) (num_samples : ℕ)
    (voltage_calibration current_calibration : Dbl α) : Dbl α :=
  let voltage_ratio := voltage_calibration * supply_per_count
  let current_ratio := current_calibration * supply_per_count
  power_loop voltage_samples current_samples voltage_ratio current_ratio num_samples
    / Dbl.ofNat num_samples

/-- The accumulator `sum_power` of `calculate_power` in the variants
`current_voltage_sensor_backup` and `examples_` after `n` iterations. -/
def Backup.power_loop (voltage_samples current_samples : ℕ → Dbl α) : ℕ → Dbl α
  | 0 => Dbl.fin 0
  | n + 1 =>
    Backup.power_loop voltage_samples current_samples n + voltage_samples n * current_samples n

/-- The function `calculate_power` of the variants `current_voltage_sensor_backup`
and `examples_`, which takes no calibration. -/
def Backup.calculate_power (voltage_samples current_samples : ℕ → Dbl α) (num_samples : ℕ) :
    Dbl α :=
  Backup.power_loop voltage_samples current_samples num_samples / Dbl.ofNat num_samples

/-! ## Metering cycle -/

/-- The six values computed by one pass of the main loop. -/
structure Report (α : Type) where
  current_rms : Dbl α
  voltage_rms : Dbl α
  active_power : Dbl α
  apparent_power : Dbl α
  reactive_power : Dbl α
  power_factor : Dbl α

/-- The variables of `main` that live across iterations of its `while (1)` loop. -/
structure MainState (α : Type) where
  offset_current : Dbl α
  offset_voltage : Dbl α
  current_samples : ℕ → Dbl α
  voltage_samples : ℕ → Dbl α
  last_message_time : ℕ

/-- The six calls at the head of the loop body of `main` (variant `examples`),
with the locals of `main` as parameters: the report and the two sample arrays
after the calls.  `adc1` and `adc0` are the readings of converter inputs 1 and 0. -/
def metering_cycle (rt : α → α) (num_samples : ℕ)
    (current_calibration voltage_calibration offset_current offset_voltage : Dbl α)
    (current_samples voltage_samples : ℕ → Dbl α) (adc1 adc0 : ℕ → ℕ) :
    Report α × (ℕ → Dbl α) × (ℕ → Dbl α) :=
  let c := current_get rt adc1 num_samples current_calibration offset_current current_samples
  let v := voltage_get rt adc0 num_samples voltage_calibration offset_voltage voltage_samples
  let adc_current_rms := c.1
  let adc_voltage_rms := v.1
  let active_power :=
    calculate_power v.2 c.2 num_samples voltage_calibration current_calibration
  let apparent_power := calculate_apparent_power adc_voltage_rms adc_current_rms
  let reactive_power := calculate_reactive_power rt apparent_power active_power
  let power_factor := calculate_power_factor active_power apparent_power
  ({ current_rms := adc_current_rms
     voltage_rms := adc_voltage_rms
     active_power := active_power
     apparent_power := apparent_power
     reactive_power := reactive_power
     power_factor := power_factor }, c.2, v.2)

/-- The six calls at the head of the loop body of `main` in the variants
`current_voltage_sensor_backup` and `examples_`, with the locals of `main` as
parameters; `calculate_power` receives no calibration there. -/
def Backup.metering_cycle (rt : α → α) (num_samples : ℕ)
    (current_calibration voltage_calibration offset_current offset_voltage : Dbl α)
    (current_samples voltage_samples : ℕ → Dbl α) (adc1 adc0 : ℕ → ℕ) :
    Report α × (ℕ → Dbl α) × (ℕ → Dbl α) :=
  let c := current_get rt adc1 num_samples current_calibration offset_current current_samples
  let v := voltage_get rt adc0 num_samples voltage_calibration offset_voltage voltage_samples
  let adc_current_rms := c.1
  let adc_voltage_rms := v.1
  let active_power := Backup.calculate_power v.2 c.2 num_samples
  let apparent_power := calculate_apparent_power adc_voltage_rms adc_current_rms
  let reactive_power := calculate_reactive_power rt apparent_power active_power
  let power_factor := calculate_power_factor active_power apparent_power
  ({ current_rms := adc_current_rms
     voltage_rms := adc_voltage_rms
     active_power := active_power
     apparent_power := apparent_power
     reactive_power := reactive_power
     power_factor := power_factor }, c.2, v.2)

/-! ## Uplink gate -/

/-- Subtraction of two `uint32_t` values. -/
def sub32 (a b : ℕ) : ℕ := Int.toNat (((a : ℤ) - (b : ℤ)) % 4294967296)

/-- The condition `(now - last_message_time) > min_interval` of the main loop;
`min_interval` is the literal 10000, 5000 or 3000 of the variant. -/
def uplink_gate (min_interval now last_message_time : ℕ) : Bool :=
  decide (min_interval < sub32 now last_message_time)

/-- What the uplink block of one tick does besides updating the timer. -/
structure UplinkResult where
  last_message_time : ℕ
  attempts : ℕ
  logged_failure : Bool

/-- The `if ((now - last_message_time) > min_interval) { ... }` block of the
main loop; `send_result` is the value returned by `lorawan_send_unconfirmed`
if it is called. -/
def uplink_step (min_interval last_message_time now : ℕ) (send_result : ℤ) : UplinkResult :=
  if uplink_gate min_interval now last_message_time then
    { last_message_time := now, attempts := 1, logged_failure := decide (send_result < 0) }
  else
    { last_message_time := last_message_time, attempts := 0, logged_failure := false }

/-- Timestamps of the ticks on which a send is attempted, when the uplink block
runs on the ticks `(now, send_result)` in order, starting with the timer at
`last_message_time`. -/
def uplink_run (min_interval : ℕ) : ℕ → List (ℕ × ℤ) → List ℕ
  | _, [] => []
  | last_message_time, (now, send_result) :: rest =>
    let r := uplink_step min_interval last_message_time now send_result
    (if r.attempts = 0 then [] else [now]) ++ uplink_run min_interval r.last_message_time rest

/-! ## Main loop -/

/-- The inputs one iteration of the main loop receives from its environment. -/
structure Tick where
  adc1 : ℕ → ℕ
  adc0 : ℕ → ℕ
  now : ℕ
  send_result : ℤ

/-- The local `num_samples` of `main`. -/
def num_samples : ℕ := 10000

/-- The local `current_calibration` of `main`, 51.61. -/
def current_calibration : Dbl α := Dbl.fin (5161 / 100)

/-- The local `voltage_calibration` of `main` in the variant `examples`, 897.6. -/
def voltage_calibration : Dbl α := Dbl.fin (8976 / 10)

/-- The local `voltage_calibration` of `main` in the variants
`current_voltage_sensor_backup` and `examples_`, 1051.8. -/
def Backup.voltage_calibration : Dbl α := Dbl.fin (10518 / 10)

/-- The state of `main` (variant `examples`) on entry to the `while (1)` loop;
the two sample arrays are uninitialised. -/
def main_init (current_samples voltage_samples : ℕ → Dbl α) : MainState α :=
  { offset_current := Dbl.ofNat (ADC_COUNTS >>> 1)
    offset_voltage := Dbl.ofNat (ADC_COUNTS >>> 1)
    current_samples := current_samples
    voltage_samples := voltage_samples
    last_message_time := 0 }

/-- One iteration of the `while (1)` loop of `main` (variant `examples`).  The
offsets are passed to `current_get` and `voltage_get` by value and `main` never
assigns them. -/
def main_iteration (rt : α → α) (st : MainState α) (t : Tick) :
    MainState α × Report α × UplinkResult :=
  let m := metering_cycle rt num_samples current_calibration voltage_calibration
    st.offset_current st.offset_voltage st.current_samples st.voltage_samples t.adc1 t.adc0
  let u := uplink_step 10000 st.last_message_time t.now t.send_result
  ({ offset_current := st.offset_current
     offset_voltage := st.offset_voltage
     current_samples := m.2.1
     voltage_samples := m.2.2
     last_message_time := u.last_message_time }, m.1, u)

/-- The state of `main` after the iterations fed by `ticks`, most recent last. -/
def main_run (rt : α → α) (st : MainState α) : List Tick → MainState α
  | [] => st
  | t :: rest => main_run rt (main_iteration rt st t).1 rest

/-! ## Binary payload -/

/-- The eight bytes of the object representation of a 64-bit value (a `double`
given by its bit pattern), least significant byte first. -/
def double_bytes (bits : ℕ) : List ℕ :=
  (List.range 8).map (fun i => bits / 256 ^ i % 256)

/-- The library function `memcpy(dst + off, src, n)` with `n` the length of `src`. -/
def memcpy (dst : List ℕ) (off : ℕ) (src : List ℕ) : List ℕ :=
  dst.take off ++ src ++ dst.drop (off + src.length)

/-- The bit patterns of the six `double`s of a report, in the order the main
loop copies them. -/
structure ReportBits where
  adc_current_rms : ℕ
  adc_voltage_rms : ℕ
  active_power : ℕ
  apparent_power : ℕ
  reactive_power : ℕ
  power_factor : ℕ

/-- The result of `sizeof` on a `double`. -/
def sizeof_double : ℕ := 8

/-- The six `memcpy` calls of the main loop (variants `examples` and
`examples_`) on the array `payload`. -/
def build_payload (payload : List ℕ) (r : ReportBits) : List ℕ :=
  let p1 := memcpy payload 0 (double_bytes r.adc_current_rms)
  let p2 := memcpy p1 sizeof_double (double_bytes r.adc_voltage_rms)
  let p3 := memcpy p2 (sizeof_double + sizeof_double) (double_bytes r.active_power)
  let p4 := memcpy p3 (sizeof_double + sizeof_double + sizeof_double)
    (double_bytes r.apparent_power)
  let p5 := memcpy p4 (sizeof_double + sizeof_double + sizeof_double + sizeof_double)
    (double_bytes r.reactive_power)
  memcpy p5 (sizeof_double + sizeof_double + sizeof_double + sizeof_double + sizeof_double)
    (double_bytes r.power_factor)

/-! ## Reference definitions taken from the specification -/

/-- The offset tracker of the specification: `new_offset = offset +
(raw_sample - offset) / 4096`, folded over the first `n` raw samples. -/
def ema_offset (adc : ℕ → ℕ) (offset : α) : ℕ → α
  | 0 => offset
  | n + 1 => ema_offset adc offset n + ((adc n : α) - ema_offset adc offset n) / 4096

/-- The filtered sample of the specification: `raw_sample - new_offset`, with
the offset already updated by that sample. -/
def filtered_sample (adc : ℕ → ℕ) (offset : α) (i : ℕ) : α :=
  (adc i : α) - ema_offset adc offset (i + 1)

/-- Contents of a sample array whose first `n` entries were overwritten by the
filtered samples. -/
def filled (adc : ℕ → ℕ) (o : α) (buf : ℕ → Dbl α) (n : ℕ) : ℕ → Dbl α :=
  fun i => if i < n then Dbl.fin (filtered_sample adc o i) else buf i

/-- Sum of the squares of the first `n` filtered samples. -/
def sum_squares (adc : ℕ → ℕ) (offset : α) : ℕ → α
  | 0 => 0
  | n + 1 => sum_squares adc offset n + filtered_sample adc offset n * filtered_sample adc offset n

/-- Read a little-endian sequence of bytes back as a number. -/
def read_bytes : List ℕ → ℕ
  | [] => 0
  | b :: rest => b + 256 * read_bytes rest

/-- The 8-byte field of a payload that starts at byte offset `off`, read back. -/
def read_double (payload : List ℕ) (off : ℕ) : ℕ :=
  read_bytes ((payload.drop off).take 8)

/-! ## Binary64 arithmetic -/

/-- Number of halvings that bring `n` below 2, at most `fuel` of them. -/
def B64.log2_fuel : ℕ → ℕ → ℕ
  | 0, _ => 0
  | fuel + 1, n => if n < 2 then 0 else B64.log2_fuel fuel (n / 2) + 1

/-- Floor of the binary logarithm of a positive natural number. -/
def B64.log2 (n : ℕ) : ℕ := B64.log2_fuel n n

/-- Digit-by-digit integer square root: starting from `r`, set each of the `k`
low bits, highest first, when the square stays at most `n`. -/
def B64.isqrt_bits (n : ℕ) : ℕ → ℕ → ℕ
  | 0, r => r
  | k + 1, r =>
    if (r + 2 ^ k) * (r + 2 ^ k) ≤ n then B64.isqrt_bits n k (r + 2 ^ k)
    else B64.isqrt_bits n k r

/-- Floor of the square root of a natural number. -/
def B64.isqrt (n : ℕ) : ℕ := B64.isqrt_bits n (B64.log2 n / 2 + 1) 0

/-- Floor of the binary logarithm of the positive rational `p / d`. -/
def B64.log2_ratio (p d : ℕ) : ℤ :=
  let g : ℤ := (B64.log2 p : ℤ) - (B64.log2 d : ℤ)
  if 0 ≤ g then (if 2 ^ g.toNat * d ≤ p then g else g - 1)
  else (if d ≤ p * 2 ^ (-g).toNat then g else g - 1)

/-- The value `m * 2 ^ k` as a rational number. -/
def B64.scale (m : ℕ) (k : ℤ) : ℚ :=
  if 0 ≤ k then ((m * 2 ^ k.toNat : ℕ) : ℚ) else (m : ℚ) / ((2 ^ (-k).toNat : ℕ) : ℚ)

/-- The quotient `n / d` rounded to the nearest integer, ties to even. -/
def B64.round_half_even (n d : ℕ) : ℕ :=
  let fl := n / d
  let rem := n % d
  if 2 * rem < d then fl else if d < 2 * rem then fl + 1 else if fl % 2 = 0 then fl else fl + 1

/-- Nearest binary64 magnitude to the positive rational `p / d`: 53 significant
bits, exponent at least `-1022` (smaller values are subnormal), ties to even;
`none` stands for overflow, a rounded magnitude of `2 ^ 1024` or more. -/
def B64.round_pos (p d : ℕ) : Option ℚ :=
  let e : ℤ := max (B64.log2_ratio p d) (-1022)
  let k : ℤ := e - 52
  let m : ℕ :=
    if 0 ≤ k then B64.round_half_even p (d * 2 ^ k.toNat)
    else B64.round_half_even (p * 2 ^ (-k).toNat) d
  if 0 ≤ k ∧ 2 ^ 1024 ≤ m * 2 ^ k.toNat then none else some (B64.scale m k)

/-- An exact rational result rounded to binary64. -/
def B64.round_q (q : ℚ) : Dbl ℚ :=
  if q = 0 then Dbl.fin 0
  else
    match B64.round_pos q.num.natAbs q.den with
    | some a => if 0 < q then Dbl.fin a else Dbl.fin (-a)
    | none => if 0 < q then Dbl.pinf else Dbl.ninf

/-- An exact result rounded to binary64; infinities and NaN are kept. -/
def B64.round : Dbl ℚ → Dbl ℚ
  | Dbl.fin q => B64.round_q q
  | Dbl.pinf => Dbl.pinf
  | Dbl.ninf => Dbl.ninf
  | Dbl.nan => Dbl.nan

/-- Correctly rounded binary64 square root of a non-negative rational: with
`4 ^ k` the square of the unit in the last place of the root, the integer
square root of `q / 4 ^ k` is rounded to nearest, ties to even. -/
def B64.rt (q : ℚ) : ℚ :=
  if q ≤ 0 then 0
  else
    let p := q.num.natAbs
    let d := q.den
    let e : ℤ := B64.log2_ratio p d / 2
    let k : ℤ := e - 52
    let t : ℕ := if 0 ≤ k then p else p * 4 ^ (-k).toNat
    let u : ℕ := if 0 ≤ k then d * 4 ^ k.toNat else d
    let m := B64.isqrt (t / u)
    let lhs := 4 * t
    let rhs := (2 * m + 1) * (2 * m + 1) * u
    let m2 :=
      if lhs < rhs then m else if rhs < lhs then m + 1 else if m % 2 = 0 then m else m + 1
    B64.scale m2 k

/-- A binary64 `double`: a value class of `Dbl` over the rationals; the
operations below only produce representable finite values. -/
structure F64 where
  val : Dbl ℚ
  deriving DecidableEq

instance : Add F64 := ⟨fun a b => ⟨B64.round (a.val + b.val)⟩⟩
instance : Sub F64 := ⟨fun a b => ⟨B64.round (a.val - b.val)⟩⟩
instance : Mul F64 := ⟨fun a b => ⟨B64.round (a.val * b.val)⟩⟩
instance : Div F64 := ⟨fun a b => ⟨B64.round (a.val / b.val)⟩⟩

/-- A decimal literal, or an integer converted to `double`. -/
def F64.lit (q : ℚ) : F64 := ⟨B64.round_q q⟩

/-- The library function `sqrt` in binary64. -/
def F64.sqrt (x : F64) : F64 := ⟨Dbl.sqrt B64.rt x.val⟩

/-- The library call `pow(x, 2)` in binary64, the rounded square. -/
def F64.pow2 (x : F64) : F64 := x * x

/-! ## The program in binary64 arithmetic (variant `examples`) -/

/-- The expression `(SUPPLY_VOLTAGE / 1000.0) / ADC_COUNTS` in binary64. -/
def B64.supply_per_count : F64 :=
  (F64.lit SUPPLY_VOLTAGE / F64.lit 1000) / F64.lit ADC_COUNTS

/-- Local state of the sampling loop in binary64. -/
structure B64.SampleState where
  offset : F64
  sum : F64
  samples : ℕ → F64

/-- The body of the `for` loop of `current_get` in binary64. -/
def B64.current_step (s : B64.SampleState) (sample : ℕ) (raw : ℕ) : B64.SampleState :=
  let sample_current : F64 := F64.lit raw
  let offset_current := s.offset + ((sample_current - s.offset) / F64.lit 4096)
  let filtered_current := sample_current - offset_current
  let sqrt_current := filtered_current * filtered_current
  { offset := offset_current
    sum := s.sum + sqrt_current
    samples := Function.update s.samples sample filtered_current }

/-- The `for` loop of `current_get` in binary64 after `n` iterations. -/
def B64.current_loop (adc : ℕ → ℕ) (offset_current : F64) (current_samples : ℕ → F64) :
    ℕ → B64.SampleState
  | 0 => { offset := offset_current, sum := F64.lit 0, samples := current_samples }
  | n + 1 => B64.current_step (B64.current_loop adc offset_current current_samples n) n (adc n)

/-- The function `current_get` in binary64. -/
def B64.current_get (adc : ℕ → ℕ) (num_samples : ℕ) (current_calibration offset_current : F64)
    (current_samples : ℕ → F64) : F64 × (ℕ → F64) :=
  let s := B64.current_loop adc offset_current current_samples num_samples
  let current_ratio := current_calibration * B64.supply_per_count
  let current_rms := current_ratio * F64.sqrt (s.sum / F64.lit num_samples)
  (current_rms, s.samples)

/-- The body of the `for` loop of `voltage_get` in binary64. -/
def B64.voltage_step (s : B64.SampleState) (sample : ℕ) (raw : ℕ) : B64.SampleState :=
  let sample_voltage : F64 := F64.lit raw
  let offset_voltage := s.offset + ((sample_voltage - s.offset) / F64.lit 4096)
  let filtered_voltage := sample_voltage - offset_voltage
  let sqrt_voltage := filtered_voltage * filtered_voltage
  { offset := offset_voltage
    sum := s.sum + sqrt_voltage
    samples := Function.update s.samples sample filtered_voltage }

/-- The `for` loop of `voltage_get` in binary64 after `n` iterations. -/
def B64.voltage_loop (adc : ℕ → ℕ) (offset_voltage : F64) (voltage_samples : ℕ → F64) :
    ℕ → B64.SampleState
  | 0 => { offset := offset_voltage, sum := F64.lit 0, samples := voltage_samples }
  | n + 1 => B64.voltage_step (B64.voltage_loop adc offset_voltage voltage_samples n) n (adc n)

/-- The function `voltage_get` in binary64. -/
def B64.voltage_get (adc : ℕ → ℕ) (num_samples : ℕ) (voltage_calibration offset_voltage : F64)
    (voltage_samples : ℕ → F64) : F64 × (ℕ → F64) :=
  let s := B64.voltage_loop adc offset_voltage voltage_samples num_samples
  let voltage_ratio := voltage_calibration * B64.supply_per_count
  let voltage_rms := voltage_ratio * F64.sqrt (s.sum / F64.lit num_samples)
  (voltage_rms, s.samples)

/-- The accumulator `sum_power` of `calculate_power` in binary64. -/
def B64.power_loop (voltage_samples current_samples : ℕ → F64)
    (voltage_ratio current_ratio : F64) : ℕ → F64
  | 0 => F64.lit 0
  | n + 1 =>
    let calibrated_voltage := voltage_samples n * voltage_ratio
    let calibrated_current := current_samples n * current_ratio
    B64.power_loop voltage_samples current_samples voltage_ratio current_ratio n
      + calibrated_voltage * calibrated_current

/-- The function `calculate_power` of the variant `examples` in binary64. -/
def B64.calculate_power (voltage_samples current_samples : ℕ → F64) (num_samples : ℕ)
    (voltage_calibration current_calibration : F64) : F64 :=
  let voltage_ratio := voltage_calibration * B64.supply_per_count
  let current_ratio := current_calibration * B64.supply_per_count
  B64.power_loop voltage_samples current_samples voltage_ratio current_ratio num_samples
    / F64.lit num_samples

/-- The function `calculate_apparent_power` in binary64. -/
def B64.calculate_apparent_power (voltage_rms current_rms : F64) : F64 :=
  voltage_rms * current_rms

/-- The function `calculate_reactive_power` in binary64. -/
def B64.calculate_reactive_power (apparent_power active_power : F64) : F64 :=
  F64.sqrt (F64.pow2 apparent_power - F64.pow2 active_power)

/-- The function `calculate_power_factor` in binary64. -/
def B64.calculate_power_factor (active_power apparent_power : F64) : F64 :=
  active_power / apparent_power

/-- The six values computed by one pass of the main loop, in binary64. -/
structure B64.Report where
  current_rms : F64
  voltage_rms : F64
  active_power : F64
  apparent_power : F64
  reactive_power : F64
  power_factor : F64

/-- The six calls at the head of the loop body of `main` (variant `examples`)
in binary64. -/
def B64.metering_cycle (num_samples : ℕ)
    (current_calibration voltage_calibration offset_current offset_voltage : F64)
    (current_samples voltage_samples : ℕ → F64) (adc1 adc0 : ℕ → ℕ) : B64.Report :=
  let c := B64.current_get adc1 num_samples current_calibration offset_current current_samples
  let v := B64.voltage_get adc0 num_samples voltage_calibration offset_voltage voltage_samples
  let adc_current_rms := c.1
  let adc_voltage_rms := v.1
  let active_power :=
    B64.calculate_power v.2 c.2 num_samples voltage_calibration current_calibration
  let apparent_power := B64.calculate_apparent_power adc_voltage_rms adc_current_rms
  let reactive_power := B64.calculate_reactive_power apparent_power active_power
  let power_factor := B64.calculate_power_factor active_power apparent_power
  { current_rms := adc_current_rms
    voltage_rms := adc_voltage_rms
    active_power := active_power
    apparent_power := apparent_power
    reactive_power := reactive_power
    power_factor := power_factor }

/-! ## Arithmetic on finite values -/

@[simp] theorem Dbl.fin_add_fin (a b : α) : (Dbl.fin a + Dbl.fin b : Dbl α) = Dbl.fin (a + b) := rfl

@[simp] theorem Dbl.fin_sub_fin (a b : α) : (Dbl.fin a - Dbl.fin b : Dbl α) = Dbl.fin (a - b) := by
  show Dbl.add (Dbl.fin a) (Dbl.neg (Dbl.fin b)) = _
  simp [Dbl.add, Dbl.neg, sub_eq_add_neg]

@[simp] theorem Dbl.fin_mul_fin (a b : α) : (Dbl.fin a * Dbl.fin b : Dbl α) = Dbl.fin (a * b) := rfl

theorem Dbl.fin_div_fin (a b : α) (hb : b ≠ 0) :
    (Dbl.fin a / Dbl.fin b : Dbl α) = Dbl.fin (a / b) := by
  show Dbl.div (Dbl.fin a) (Dbl.fin b) = _
  simp [Dbl.div, hb]

theorem Dbl.fin_div_zero (a : α) : (Dbl.fin a / Dbl.fin 0 : Dbl α) = Dbl.inf_of_sign a := by
  show Dbl.div (Dbl.fin a) (Dbl.fin 0) = _
  simp [Dbl.div]

@[simp] theorem Dbl.pow2_fin (a : α) : Dbl.pow2 (Dbl.fin a) = Dbl.fin (a * a) := rfl

theorem Dbl.sqrt_fin_of_nonneg (rt : α → α) (a : α) (ha : 0 ≤ a) :
    Dbl.sqrt rt (Dbl.fin a) = Dbl.fin (rt a) := by
  simp [Dbl.sqrt, not_lt.mpr ha]

theorem Dbl.sqrt_fin_of_neg (rt : α → α) (a : α) (ha : a < 0) :
    Dbl.sqrt rt (Dbl.fin a) = Dbl.nan := by
  simp [Dbl.sqrt, ha]

theorem supply_per_count_eq : (supply_per_count : Dbl α) = Dbl.fin ((3283 / 1000) / 4096) := by
  have h1 : (1000 : α) ≠ 0 := by norm_num
  have h2 : ((4096 : ℕ) : α) ≠ 0 := by norm_num
  have hc : ADC_COUNTS = 4096 := by decide
  simp only [supply_per_count, Dbl.ofNat, SUPPLY_VOLTAGE, hc]
  rw [Dbl.fin_div_fin _ _ h1, Dbl.fin_div_fin _ _ h2]
  norm_num

/-! ## Reactive power and power factor -/

theorem reactive_radicand_fin (S P : α) :
    (Dbl.pow2 (Dbl.fin S) - Dbl.pow2 (Dbl.fin P) : Dbl α) = Dbl.fin (S * S - P * P) := by
  simp

theorem radicand_nonneg_iff (S P : α) : 0 ≤ S * S - P * P ↔ |P| ≤ |S| := by
  rw [sub_nonneg, ← sq, ← sq, sq_le_sq]

theorem sum_squares_nonneg (adc : ℕ → ℕ) (o : α) (n : ℕ) : 0 ≤ sum_squares adc o n := by
  induction n with
  | zero => exact le_refl _
  | succ n ih =>
    show 0 ≤ sum_squares adc o n + filtered_sample adc o n * filtered_sample adc o n
    exact add_nonneg ih (mul_self_nonneg _)

/-! ## The sampling loop on finite values -/

theorem voltage_step_eq (s : SampleState α) (i r : ℕ) : voltage_step s i r = current_step s i r :=
  rfl

theorem voltage_loop_eq (adc : ℕ → ℕ) (o : Dbl α) (buf : ℕ → Dbl α) (n : ℕ) :
    voltage_loop adc o buf n = current_loop adc o buf n := by
  induction n with
  | zero => rfl
  | succ n ih => simp only [voltage_loop, current_loop, ih, voltage_step_eq]

theorem voltage_get_eq (rt : α → α) (adc : ℕ → ℕ) (n : ℕ) (c o : Dbl α) (buf : ℕ → Dbl α) :
    voltage_get rt adc n c o buf = current_get rt adc n c o buf := by
  simp only [voltage_get, current_get, voltage_loop_eq]

theorem current_step_fin (o s : α) (buf : ℕ → Dbl α) (i r : ℕ) :
    current_step { offset := Dbl.fin o, sum := Dbl.fin s, samples := buf } i r =
      { offset := Dbl.fin (o + ((r : α) - o) / 4096)
        sum := Dbl.fin (s + ((r : α) - (o + ((r : α) - o) / 4096))
          * ((r : α) - (o + ((r : α) - o) / 4096)))
        samples := Function.update buf i (Dbl.fin ((r : α) - (o + ((r : α) - o) / 4096))) } := by
  have h : (4096 : α) ≠ 0 := by norm_num
  simp only [current_step, Dbl.ofNat, Dbl.fin_sub_fin, Dbl.fin_div_fin _ _ h, Dbl.fin_add_fin,
    Dbl.fin_mul_fin]

theorem current_loop_fin (adc : ℕ → ℕ) (o : α) (buf : ℕ → Dbl α) (n : ℕ) :
    current_loop adc (Dbl.fin o) buf n =
      { offset := Dbl.fin (ema_offset adc o n)
        sum := Dbl.fin (sum_squares adc o n)
        samples := filled adc o buf n } := by
  induction n with
  | zero =>
    simp only [current_loop, ema_offset, sum_squares, filled]
    congr 1
  | succ n ih =>
    rw [current_loop, ih, current_step_fin]
    simp only [ema_offset, sum_squares, filtered_sample]
    congr 1
    funext i
    by_cases hi : i = n
    · subst hi
      simp [filled, filtered_sample, ema_offset]
    · rw [Function.update_noteq hi]
      by_cases hlt : i < n
      · have h2 : i < n + 1 := Nat.lt_succ_of_lt hlt
        simp [filled, hlt, h2]
      · have h2 : ¬ i < n + 1 := by omega
        simp [filled, hlt, h2]

theorem current_get_fin (rt : α → α) (adc : ℕ → ℕ) (n : ℕ) (hn : 0 < n) (c o : α)
    (buf : ℕ → Dbl α) :
    current_get rt adc n (Dbl.fin c) (Dbl.fin o) buf =
      (Dbl.fin (c * ((3283 / 1000) / 4096) * rt (sum_squares adc o n / (n : α))),
        filled adc o buf n) := by
  have hn0 : (n : α) ≠ 0 := Nat.cast_ne_zero.mpr (Nat.pos_iff_ne_zero.mp hn)
  have hnn : (0 : α) ≤ sum_squares adc o n / (n : α) :=
    div_nonneg (sum_squares_nonneg adc o n) (Nat.cast_nonneg n)
  simp only [current_get, current_loop_fin, supply_per_count_eq, Dbl.ofNat,
    Dbl.fin_div_fin _ _ hn0, Dbl.sqrt_fin_of_nonneg rt _ hnn, Dbl.fin_mul_fin]

/-! ## The offset tracker on a constant input -/

theorem ema_offset_const (X : ℕ) (o : α) (n : ℕ) :
    ema_offset (fun _ => X) o n = (X : α) + (o - X) * (4095 / 4096) ^ n := by
  induction n with
  | zero => simp [ema_offset]
  | succ n ih =>
    rw [ema_offset, ih, pow_succ]
    ring

theorem decay_pow_lt_one (n : ℕ) (hn : 0 < n) : ((4095 : α) / 4096) ^ n < 1 := by
  have h0 : (0 : α) ≤ 4095 / 4096 := by norm_num
  have h1 : ((4095 : α) / 4096) < 1 := by norm_num
  exact pow_lt_one₀ h0 h1 (Nat.pos_iff_ne_zero.mp hn)

theorem main_init_offset (b1 b2 : ℕ → Dbl α) :
    (main_init b1 b2).offset_current = Dbl.fin 2048 ∧
      (main_init b1 b2).offset_voltage = Dbl.fin 2048 := by
  have h : ADC_COUNTS >>> 1 = 2048 := by decide
  simp [main_init, h, Dbl.ofNat]

theorem main_run_offsets (rt : α → α) (ticks : List Tick) (st : MainState α) :
    (main_run rt st ticks).offset_current = st.offset_current ∧
      (main_run rt st ticks).offset_voltage = st.offset_voltage := by
  induction ticks generalizing st with
  | nil => exact ⟨rfl, rfl⟩
  | cons t rest ih =>
    rw [main_run]
    exact ih (main_iteration rt st t).1

theorem sum_squares_eq_sum (adc : ℕ → ℕ) (o : α) (n : ℕ) :
    sum_squares adc o n = ∑ i in Finset.range n, filtered_sample adc o i ^ 2 := by
  induction n with
  | zero => simp [sum_squares]
  | succ n ih => rw [sum_squares, ih, Finset.sum_range_succ, sq]

/-! ## Active power -/

theorem power_loop_fin (vs cs : ℕ → Dbl α) (v c : ℕ → α) (rv rc : α) (N : ℕ)
    (hv : ∀ i, i < N → vs i = Dbl.fin (v i)) (hc : ∀ i, i < N → cs i = Dbl.fin (c i)) (n : ℕ)
    (hn : n ≤ N) :
    power_loop vs cs (Dbl.fin rv) (Dbl.fin rc) n
      = Dbl.fin (∑ i in Finset.range n, (v i * rv) * (c i * rc)) := by
  induction n with
  | zero => simp [power_loop]
  | succ n ih =>
    have hlt : n < N := hn
    rw [power_loop, ih (Nat.le_of_lt hlt), hv n hlt, hc n hlt, Finset.sum_range_succ]
    simp

theorem backup_power_loop_fin (vs cs : ℕ → Dbl α) (v c : ℕ → α) (N : ℕ)
    (hv : ∀ i, i < N → vs i = Dbl.fin (v i)) (hc : ∀ i, i < N → cs i = Dbl.fin (c i)) (n : ℕ)
    (hn : n ≤ N) :
    Backup.power_loop vs cs n = Dbl.fin (∑ i in Finset.range n, v i * c i) := by
  induction n with
  | zero => simp [Backup.power_loop]
  | succ n ih =>
    have hlt : n < N := hn
    rw [Backup.power_loop, ih (Nat.le_of_lt hlt), hv n hlt, hc n hlt, Finset.sum_range_succ]
    simp

theorem calculate_power_fin (vs cs : ℕ → Dbl α) (v c : ℕ → α) (vcal ccal : α) (N : ℕ)
    (hN : 0 < N) (hv : ∀ i, i < N → vs i = Dbl.fin (v i))
    (hc : ∀ i, i < N → cs i = Dbl.fin (c i)) :
    calculate_power vs cs N (Dbl.fin vcal) (Dbl.fin ccal)
      = Dbl.fin ((∑ i in Finset.range N,
          (v i * (vcal * ((3283 / 1000) / 4096))) * (c i * (ccal * ((3283 / 1000) / 4096))))
            / (N : α)) := by
  have hn0 : (N : α) ≠ 0 := Nat.cast_ne_zero.mpr (Nat.pos_iff_ne_zero.mp hN)
  simp only [calculate_power, supply_per_count_eq, Dbl.fin_mul_fin, Dbl.ofNat]
  rw [power_loop_fin vs cs v c _ _ N hv hc N (le_refl N), Dbl.fin_div_fin _ _ hn0]

theorem backup_calculate_power_fin (vs cs : ℕ → Dbl α) (v c : ℕ → α) (N : ℕ)
    (hN : 0 < N) (hv : ∀ i, i < N → vs i = Dbl.fin (v i))
    (hc : ∀ i, i < N → cs i = Dbl.fin (c i)) :
    Backup.calculate_power vs cs N = Dbl.fin ((∑ i in Finset.range N, v i * c i) / (N : α)) := by
  have hn0 : (N : α) ≠ 0 := Nat.cast_ne_zero.mpr (Nat.pos_iff_ne_zero.mp hN)
  simp only [Backup.calculate_power, Dbl.ofNat]
  rw [backup_power_loop_fin vs cs v c N hv hc N (le_refl N), Dbl.fin_div_fin _ _ hn0]

/-! ## Uplink gate -/

theorem sub32_of_le (now last : ℕ) (hle : last ≤ now) (hnow : now < 4294967296) :
    sub32 now last = now - last := by
  unfold sub32
  omega

theorem uplink_gate_iff (min_interval now last : ℕ) (hle : last ≤ now) (hnow : now < 4294967296) :
    uplink_gate min_interval now last = true ↔ min_interval < now - last := by
  simp [uplink_gate, sub32_of_le now last hle hnow]

theorem uplink_step_attempts (min_interval last now : ℕ) (res : ℤ) :
    ((uplink_step min_interval last now res).attempts = 1 ↔
        uplink_gate min_interval now last = true) ∧
      ((uplink_step min_interval last now res).attempts = 0 ↔
        uplink_gate min_interval now last = false) := by
  unfold uplink_step
  cases uplink_gate min_interval now last <;> simp

theorem uplink_run_spaced (min_interval : ℕ) (ticks : List (ℕ × ℤ)) :
    ∀ last : ℕ, (∀ t ∈ ticks, last ≤ t.1 ∧ t.1 < 4294967296) →
      List.Pairwise (fun a b : ℕ × ℤ => a.1 ≤ b.1) ticks →
      (∀ x ∈ uplink_run min_interval last ticks, last + min_interval < x) ∧
        List.Pairwise (fun a b => a + min_interval < b) (uplink_run min_interval last ticks) := by
  induction ticks with
  | nil =>
    intro last _ _
    simp [uplink_run]
  | cons t rest ih =>
    intro last hb hs
    obtain ⟨now, res⟩ := t
    have hnow := hb (now, res) (List.mem_cons_self _ _)
    have hs2 := List.pairwise_cons.mp hs
    have hrest : ∀ u ∈ rest, last ≤ u.1 ∧ u.1 < 4294967296 :=
      fun u hu => hb u (List.mem_cons_of_mem _ hu)
    by_cases hg : uplink_gate min_interval now last = true
    · have hlt : min_interval < now - last :=
        (uplink_gate_iff min_interval now last hnow.1 hnow.2).mp hg
      have hrest2 : ∀ u ∈ rest, now ≤ u.1 ∧ u.1 < 4294967296 :=
        fun u hu => ⟨hs2.1 u hu, (hrest u hu).2⟩
      have h := ih now hrest2 hs2.2
      have hrun : uplink_run min_interval last ((now, res) :: rest)
          = now :: uplink_run min_interval now rest := by
        simp [uplink_run, uplink_step, hg]
      rw [hrun]
      constructor
      · intro x hx
        rcases List.mem_cons.mp hx with hx | hx
        · rw [hx]
          omega
        · have := h.1 x hx
          omega
      · exact List.pairwise_cons.mpr ⟨fun x hx => h.1 x hx, h.2⟩
    · have hrun : uplink_run min_interval last ((now, res) :: rest)
          = uplink_run min_interval last rest := by
        simp [uplink_run, uplink_step, hg]
      rw [hrun]
      exact ih last hrest hs2.2

/-! ## Binary payload -/

theorem double_bytes_length (bits : ℕ) : (double_bytes bits).length = 8 := by
  simp [double_bytes]

theorem read_bytes_double_bytes (bits : ℕ) (h : bits < 18446744073709551616) :
    read_bytes (double_bytes bits) = bits := by
  simp only [double_bytes, List.range, List.range.loop, List.map, read_bytes]
  norm_num
  omega

theorem memcpy_after_prefix (pre src rest : List ℕ) :
    memcpy (pre ++ rest) pre.length src = pre ++ src ++ rest.drop src.length := by
  simp [memcpy]

theorem build_payload_eq (payload : List ℕ) (r : ReportBits) (h : payload.length = 48) :
    build_payload payload r =
      double_bytes r.adc_current_rms ++ double_bytes r.adc_voltage_rms
        ++ double_bytes r.active_power ++ double_bytes r.apparent_power
        ++ double_bytes r.reactive_power ++ double_bytes r.power_factor := by
  have e1 := memcpy_after_prefix [] (double_bytes r.adc_current_rms) payload
  have e2 := memcpy_after_prefix (double_bytes r.adc_current_rms)
    (double_bytes r.adc_voltage_rms) (payload.drop 8)
  have e3 := memcpy_after_prefix
    (double_bytes r.adc_current_rms ++ double_bytes r.adc_voltage_rms)
    (double_bytes r.active_power) (payload.drop 16)
  have e4 := memcpy_after_prefix
    (double_bytes r.adc_current_rms ++ double_bytes r.adc_voltage_rms
      ++ double_bytes r.active_power)
    (double_bytes r.apparent_power) (payload.drop 24)
  have e5 := memcpy_after_prefix
    (double_bytes r.adc_current_rms ++ double_bytes r.adc_voltage_rms
      ++ double_bytes r.active_power ++ double_bytes r.apparent_power)
    (double_bytes r.reactive_power) (payload.drop 32)
  have e6 := memcpy_after_prefix
    (double_bytes r.adc_current_rms ++ double_bytes r.adc_voltage_rms
      ++ double_bytes r.active_power ++ double_bytes r.apparent_power
      ++ double_bytes r.reactive_power)
    (double_bytes r.power_factor) (payload.drop 40)
  simp only [List.length_append, double_bytes_length, List.length_nil, List.nil_append,
    List.drop_drop, Nat.reduceAdd] at e1 e2 e3 e4 e5 e6
  have hend : payload.drop 48 = [] := List.drop_eq_nil_of_le (le_of_eq h)
  simp only [build_payload, sizeof_double, Nat.reduceAdd]
  rw [e1, e2, e3, e4, e5, e6, hend, List.append_nil]

theorem field_slice (pre d post : List ℕ) (off : ℕ) (hoff : pre.length = off)
    (hd : d.length = 8) : ((pre ++ d ++ post).drop off).take 8 = d := by
  rw [List.append_assoc, List.drop_left' hoff, List.take_left' hd]

/-! ## The all-zero signal -/

theorem ema_offset_midscale (n : ℕ) : ema_offset (fun _ => 2048) (2048 : α) n = 2048 := by
  rw [ema_offset_const]
  simp

theorem filtered_sample_midscale (i : ℕ) :
    filtered_sample (fun _ => 2048) (2048 : α) i = 0 := by
  rw [filtered_sample, ema_offset_midscale]
  simp

theorem sum_squares_midscale (n : ℕ) : sum_squares (fun _ => 2048) (2048 : α) n = 0 := by
  induction n with
  | zero => rfl
  | succ n ih => rw [sum_squares, ih, filtered_sample_midscale]; simp

theorem current_get_midscale (rt : α → α) (hrt : rt 0 = 0) (N : ℕ) (hN : 0 < N) (c : α)
    (buf : ℕ → Dbl α) :
    current_get rt (fun _ => 2048) N (Dbl.fin c) (Dbl.fin 2048) buf
      = (Dbl.fin 0, fun i => if i < N then Dbl.fin 0 else buf i) := by
  have hf : filled (fun _ => 2048) (2048 : α) buf N
      = fun i => if i < N then Dbl.fin 0 else buf i := by
    funext i
    simp [filled, filtered_sample_midscale]
  rw [current_get_fin rt _ N hN, sum_squares_midscale, hf]
  simp [hrt]

theorem metering_cycle_midscale (rt : α → α) (hrt : rt 0 = 0) (N : ℕ) (hN : 0 < N)
    (ccal vcal : α) (b1 b2 : ℕ → Dbl α) :
    metering_cycle rt N (Dbl.fin ccal) (Dbl.fin vcal) (Dbl.fin 2048) (Dbl.fin 2048) b1 b2
        (fun _ => 2048) (fun _ => 2048)
      = ({ current_rms := Dbl.fin 0
           voltage_rms := Dbl.fin 0
           active_power := Dbl.fin 0
           apparent_power := Dbl.fin 0
           reactive_power := Dbl.fin 0
           power_factor := Dbl.nan },
          fun i => if i < N then Dbl.fin 0 else b1 i,
          fun i => if i < N then Dbl.fin 0 else b2 i) := by
  have hc := current_get_midscale rt hrt N hN ccal b1
  have hv := current_get_midscale rt hrt N hN vcal b2
  have hp : calculate_power (fun i => if i < N then Dbl.fin 0 else b2 i)
      (fun i => if i < N then Dbl.fin 0 else b1 i) N (Dbl.fin vcal) (Dbl.fin ccal)
      = Dbl.fin 0 := by
    rw [calculate_power_fin _ _ (fun _ => 0) (fun _ => 0) vcal ccal N hN
      (fun i hi => by simp [hi]) (fun i hi => by simp [hi])]
    simp
  simp only [metering_cycle, voltage_get_eq, hc, hv, hp, calculate_apparent_power,
    calculate_reactive_power, calculate_power_factor, Dbl.fin_mul_fin, Dbl.pow2_fin,
    Dbl.fin_sub_fin, Dbl.fin_div_zero, mul_zero, sub_zero]
  simp [Dbl.sqrt, Dbl.inf_of_sign, hrt]

/-! ## Range and convergence of the offset tracker -/

theorem ema_offset_range (adc : ℕ → ℕ) (hadc : ∀ k, adc k ≤ 4095) (o : α) (h0 : 0 ≤ o)
    (h1 : o ≤ 4095) (n : ℕ) : 0 ≤ ema_offset adc o n ∧ ema_offset adc o n ≤ 4095 := by
  induction n with
  | zero => exact ⟨h0, h1⟩
  | succ n ih =>
    have hr0 : (0 : α) ≤ (adc n : α) := Nat.cast_nonneg _
    have hr1 : (adc n : α) ≤ 4095 := by exact_mod_cast hadc n
    have e : ema_offset adc o (n + 1)
        = ema_offset adc o n * (4095 / 4096) + (adc n : α) / 4096 := by
      rw [ema_offset]
      ring
    rw [e]
    constructor
    · have : (0 : α) ≤ ema_offset adc o n * (4095 / 4096) :=
        mul_nonneg ih.1 (by norm_num)
      have h2 : (0 : α) ≤ (adc n : α) / 4096 := div_nonneg hr0 (by norm_num)
      linarith
    · have h3 : ema_offset adc o n * (4095 / 4096) ≤ 4095 * (4095 / 4096) :=
        mul_le_mul_of_nonneg_right ih.2 (by norm_num)
      have h4 : (adc n : α) / 4096 ≤ 4095 / 4096 :=
        div_le_div_of_nonneg_right hr1 (by norm_num)
      have h5 : (4095 : α) * (4095 / 4096) + 4095 / 4096 = 4095 := by norm_num
      linarith

theorem ema_offset_const_step (X : ℕ) (o : α) (n : ℕ) :
    ema_offset (fun _ => X) o (n + 1) - (X : α)
      = (ema_offset (fun _ => X) o n - (X : α)) * (4095 / 4096) := by
  rw [ema_offset]
  ring

theorem ema_offset_const_tendsto (X : ℕ) (o : ℝ) :
    Filter.Tendsto (fun n => ema_offset (fun _ => X) o n) Filter.atTop (nhds (X : ℝ)) := by
  have hp : Filter.Tendsto (fun n : ℕ => ((4095 : ℝ) / 4096) ^ n) Filter.atTop (nhds 0) :=
    tendsto_pow_atTop_nhds_zero_of_lt_one (by norm_num) (by norm_num)
  have h := (hp.const_mul (o - (X : ℝ))).const_add (X : ℝ)
  simp only [mul_zero, add_zero] at h
  have e : (fun n => ema_offset (fun _ => X) o n)
      = fun n : ℕ => (X : ℝ) + (o - (X : ℝ)) * (4095 / 4096) ^ n := by
    funext n
    exact ema_offset_const X o n
  rw [e]
  exact h

/-! ## Unsigned elapsed time -/

theorem sub32_wrap (last d : ℕ) (hd : d < 4294967296) :
    sub32 ((last + d) % 4294967296) last = d := by
  unfold sub32
  omega

theorem uplink_step_fire (min_interval last now : ℕ) (res : ℤ)
    (h : uplink_gate min_interval now last = true) :
    uplink_step min_interval last now res
      = { last_message_time := now, attempts := 1, logged_failure := decide (res < 0) } := by
  simp [uplink_step, h]

theorem uplink_step_idle (min_interval last now : ℕ) (res : ℤ)
    (h : uplink_gate min_interval now last = false) :
    uplink_step min_interval last now res
      = { last_message_time := last, attempts := 0, logged_failure := false } := by
  simp [uplink_step, h]

/-! ## The metering cycle on finite values -/

theorem filled_fin (adc : ℕ → ℕ) (o : α) (buf : ℕ → Dbl α) (N i : ℕ) (hi : i < N) :
    filled adc o buf N i = Dbl.fin (filtered_sample adc o i) := by
  simp [filled, hi]

theorem backup_metering_cycle_fin (rt : α → α) (N : ℕ) (hN : 0 < N) (ccal vcal oc ov : α)
    (b1 b2 : ℕ → Dbl α) (adc1 adc0 : ℕ → ℕ) :
    Backup.metering_cycle rt N (Dbl.fin ccal) (Dbl.fin vcal) (Dbl.fin oc) (Dbl.fin ov) b1 b2
        adc1 adc0
      = ({ current_rms :=
             Dbl.fin (ccal * ((3283 / 1000) / 4096) * rt (sum_squares adc1 oc N / (N : α)))
           voltage_rms :=
             Dbl.fin (vcal * ((3283 / 1000) / 4096) * rt (sum_squares adc0 ov N / (N : α)))
           active_power :=
             Dbl.fin ((∑ i in Finset.range N,
               filtered_sample adc0 ov i * filtered_sample adc1 oc i) / (N : α))
           apparent_power :=
             Dbl.fin ((vcal * ((3283 / 1000) / 4096) * rt (sum_squares adc0 ov N / (N : α)))
               * (ccal * ((3283 / 1000) / 4096) * rt (sum_squares adc1 oc N / (N : α))))
           reactive_power :=
             calculate_reactive_power rt
               (Dbl.fin ((vcal * ((3283 / 1000) / 4096) * rt (sum_squares adc0 ov N / (N : α)))
                 * (ccal * ((3283 / 1000) / 4096) * rt (sum_squares adc1 oc N / (N : α)))))
               (Dbl.fin ((∑ i in Finset.range N,
                 filtered_sample adc0 ov i * filtered_sample adc1 oc i) / (N : α)))
           power_factor :=
             calculate_power_factor
               (Dbl.fin ((∑ i in Finset.range N,
                 filtered_sample adc0 ov i * filtered_sample adc1 oc i) / (N : α)))
               (Dbl.fin ((vcal * ((3283 / 1000) / 4096) * rt (sum_squares adc0 ov N / (N : α)))
                 * (ccal * ((3283 / 1000) / 4096)
                   * rt (sum_squares adc1 oc N / (N : α))))) },
          filled adc1 oc b1 N, filled adc0 ov b2 N) := by
  have hp := backup_calculate_power_fin (filled adc0 ov b2 N) (filled adc1 oc b1 N)
    (filtered_sample adc0 ov) (filtered_sample adc1 oc) N hN
    (fun i hi => filled_fin adc0 ov b2 N i hi) (fun i hi => filled_fin adc1 oc b1 N i hi)
  simp only [Backup.metering_cycle, voltage_get_eq, current_get_fin rt _ N hN, hp,
    calculate_apparent_power, Dbl.fin_mul_fin]

/-! ## Active against apparent power in exact real arithmetic -/

theorem in_phase_apparent_lt_active (M : ℝ) (hM : 0 < M) :
    0 < ((10518 / 10) * ((3283 / 1000) / 4096) * Real.sqrt M)
        * ((5161 / 100) * ((3283 / 1000) / 4096) * Real.sqrt M) ∧
    ((10518 / 10) * ((3283 / 1000) / 4096) * Real.sqrt M)
        * ((5161 / 100) * ((3283 / 1000) / 4096) * Real.sqrt M) < M := by
  have e : ((10518 / 10) * ((3283 / 1000) / 4096) * Real.sqrt M)
      * ((5161 / 100) * ((3283 / 1000) / 4096) * Real.sqrt M)
      = ((10518 / 10) * (5161 / 100) * (((3283 / 1000) / 4096) * ((3283 / 1000) / 4096))) * M := by
    have hs : Real.sqrt M * Real.sqrt M = M := Real.mul_self_sqrt hM.le
    calc ((10518 / 10) * ((3283 / 1000) / 4096) * Real.sqrt M)
          * ((5161 / 100) * ((3283 / 1000) / 4096) * Real.sqrt M)
        = ((10518 / 10) * (5161 / 100) * (((3283 / 1000) / 4096) * ((3283 / 1000) / 4096)))
            * (Real.sqrt M * Real.sqrt M) := by ring
      _ = _ := by rw [hs]
  rw [e]
  constructor
  · exact mul_pos (by norm_num) hM
  · have hk : ((10518 : ℝ) / 10) * (5161 / 100)
        * (((3283 / 1000) / 4096) * ((3283 / 1000) / 4096)) < 1 := by norm_num
    nlinarith

theorem mean_square_pos (f : ℕ → ℝ) (N : ℕ) (hN : 0 < N) (hne : ∃ i, i < N ∧ f i ≠ 0) :
    0 < (∑ i in Finset.range N, f i * f i) / (N : ℝ) := by
  obtain ⟨i, hi, hf⟩ := hne
  have hs : 0 < ∑ i in Finset.range N, f i * f i :=
    Finset.sum_pos' (fun j _ => mul_self_nonneg (f j))
      ⟨i, Finset.mem_range.mpr hi, mul_self_pos.mpr hf⟩
  exact div_pos hs (Nat.cast_pos.mpr hN)

theorem power_triangle_of_lt (P S : ℝ) (h0 : 0 < S) (h : S < P) :
    S * S - P * P < 0 ∧
    calculate_reactive_power Real.sqrt (Dbl.fin S) (Dbl.fin P) = Dbl.nan ∧
    calculate_power_factor (Dbl.fin P) (Dbl.fin S) = Dbl.fin (P / S) ∧
    1 < P / S := by
  have hneg : S * S - P * P < 0 := by nlinarith
  refine ⟨hneg, ?_, Dbl.fin_div_fin P S (ne_of_gt h0), (one_lt_div h0).mpr h⟩
  rw [calculate_reactive_power, reactive_radicand_fin, Dbl.sqrt_fin_of_neg _ _ hneg]

theorem sum_squares_eq_sum_mul (adc : ℕ → ℕ) (o : α) (n : ℕ) :
    sum_squares adc o n
      = ∑ i in Finset.range n, filtered_sample adc o i * filtered_sample adc o i := by
  induction n with
  | zero => simp [sum_squares]
  | succ n ih => rw [sum_squares, ih, Finset.sum_range_succ]

/-! ## What one iteration of the main loop hands to the sampling functions -/

theorem current_get_samples (rt : α → α) (adc : ℕ → ℕ) (N : ℕ) (c : Dbl α) (o : α)
    (buf : ℕ → Dbl α) : (current_get rt adc N c (Dbl.fin o) buf).2 = filled adc o buf N := by
  simp only [current_get, current_loop_fin]

theorem main_iteration_calls (rt : α → α) (st : MainState α) (t : Tick) :
    (main_iteration rt st t).2.1.current_rms
      = (current_get rt t.adc1 num_samples current_calibration st.offset_current
          st.current_samples).1 ∧
    (main_iteration rt st t).1.current_samples
      = (current_get rt t.adc1 num_samples current_calibration st.offset_current
          st.current_samples).2 ∧
    (main_iteration rt st t).2.1.voltage_rms
      = (voltage_get rt t.adc0 num_samples voltage_calibration st.offset_voltage
          st.voltage_samples).1 ∧
    (main_iteration rt st t).1.voltage_samples
      = (voltage_get rt t.adc0 num_samples voltage_calibration st.offset_voltage
          st.voltage_samples).2 :=
  ⟨rfl, rfl, rfl, rfl⟩

/-! ## The claims -/

/-- C1 (counterexample): with apparent power 0 and active power 1 the radicand
handed to `sqrt` is `-1`, not `max(-1, 0)`, and `calculate_reactive_power`
returns NaN. -/
theorem reactive_power_unclamped_nan :
    (Dbl.pow2 (Dbl.fin (0 : ℝ)) - Dbl.pow2 (Dbl.fin 1) = Dbl.fin (-1)) ∧
      calculate_reactive_power Real.sqrt (Dbl.fin (0 : ℝ)) (Dbl.fin 1) = Dbl.nan := by
  constructor
  · simp
  · simp [calculate_reactive_power, Dbl.sqrt]

/-- C1 (amended): `calculate_reactive_power` hands `pow(apparent_power, 2) -
pow(active_power, 2)` to `sqrt` without a clamp.  For finite inputs with
`|active_power| <= |apparent_power| <= 2^500` the radicand is non-negative and
the result is finite and non-negative, never NaN; in exact arithmetic, and for
`apparent_power` zero or of magnitude at least `2^-500`, it is the square root of
`apparent_power^2 - active_power^2`.  For finite inputs with
`2 * |apparent_power| <= |active_power|` and `2^-500 <= |active_power| <= 2^500`
the radicand is negative and the result is NaN.  Whenever `|active_power| >
|apparent_power|` the result is NaN or zero, never a positive number.  Outside
the magnitude bounds the squares overflow or underflow in binary64: at
`(2^700, 2^700)` the result is NaN, at `(0, 10^-200)` it is 0. -/
theorem reactive_power_unclamped (rt : α → α) (hrt : ∀ x, 0 ≤ x → 0 ≤ rt x) (S P : α) :
    (|P| ≤ |S| → |S| ≤ 2 ^ 500 →
      (∃ x : α, Dbl.pow2 (Dbl.fin S) - Dbl.pow2 (Dbl.fin P) = Dbl.fin x ∧ 0 ≤ x) ∧
      (∃ q : α, calculate_reactive_power rt (Dbl.fin S) (Dbl.fin P) = Dbl.fin q ∧ 0 ≤ q) ∧
      (S = 0 ∨ 1 / 2 ^ 500 ≤ |S| →
        calculate_reactive_power rt (Dbl.fin S) (Dbl.fin P)
          = Dbl.fin (rt (S * S - P * P)))) ∧
    (2 * |S| ≤ |P| → 1 / 2 ^ 500 ≤ |P| → |P| ≤ 2 ^ 500 →
      (∃ x : α, Dbl.pow2 (Dbl.fin S) - Dbl.pow2 (Dbl.fin P) = Dbl.fin x ∧ x < 0) ∧
      calculate_reactive_power rt (Dbl.fin S) (Dbl.fin P) = Dbl.nan) ∧
    (|S| < |P| →
      (calculate_reactive_power rt (Dbl.fin S) (Dbl.fin P)).isNaN = true ∨
      calculate_reactive_power rt (Dbl.fin S) (Dbl.fin P) = Dbl.fin 0) ∧
    (B64.calculate_reactive_power (F64.lit (2 ^ 700)) (F64.lit (2 ^ 700))).val = Dbl.nan ∧
    (B64.calculate_reactive_power (F64.lit 0) (F64.lit (1 / 10 ^ 200))).val = Dbl.fin 0 := by
  have hneg : |S| < |P| → S * S - P * P < 0 := by
    intro h
    rw [← not_le, radicand_nonneg_iff]
    exact not_le.mpr h
  have hnan : |S| < |P| → calculate_reactive_power rt (Dbl.fin S) (Dbl.fin P) = Dbl.nan := by
    intro h
    rw [calculate_reactive_power, reactive_radicand_fin, Dbl.sqrt_fin_of_neg rt _ (hneg h)]
  refine ⟨?_, ?_, ?_, by decide!, by decide!⟩
  · intro h _
    have h0 : 0 ≤ S * S - P * P := (radicand_nonneg_iff S P).mpr h
    have hq : calculate_reactive_power rt (Dbl.fin S) (Dbl.fin P)
        = Dbl.fin (rt (S * S - P * P)) := by
      rw [calculate_reactive_power, reactive_radicand_fin, Dbl.sqrt_fin_of_nonneg rt _ h0]
    exact ⟨⟨_, reactive_radicand_fin S P, h0⟩, ⟨rt (S * S - P * P), hq, hrt _ h0⟩,
      fun _ => hq⟩
  · intro h hlo _
    have hpos : (0 : α) < 1 / 2 ^ 500 := by positivity
    have hs : (0 : α) ≤ |S| := abs_nonneg S
    have hlt : |S| < |P| := by linarith
    exact ⟨⟨_, reactive_radicand_fin S P, hneg hlt⟩, hnan hlt⟩
  · intro h
    left
    rw [hnan h]
    rfl

/-- Witness of `reactive_power_unclamped`: exact real square root; apparent
power 5 and active power 3 for the first part, 1 and 3 for the second. -/
theorem reactive_power_unclamped_witness :
    (∀ x : ℝ, 0 ≤ x → 0 ≤ Real.sqrt x) ∧ |(3 : ℝ)| ≤ |(5 : ℝ)| ∧ |(5 : ℝ)| ≤ 2 ^ 500 ∧
      (∃ q : ℝ, calculate_reactive_power Real.sqrt (Dbl.fin (5 : ℝ)) (Dbl.fin 3) = Dbl.fin q
        ∧ 0 ≤ q) ∧
      2 * |(1 : ℝ)| ≤ |(3 : ℝ)| ∧ (1 : ℝ) / 2 ^ 500 ≤ |(3 : ℝ)| ∧ |(3 : ℝ)| ≤ 2 ^ 500 ∧
      calculate_reactive_power Real.sqrt (Dbl.fin (1 : ℝ)) (Dbl.fin 3) = Dbl.nan := by
  have h1 : |(3 : ℝ)| ≤ |(5 : ℝ)| := by norm_num [abs_of_pos]
  have h2 : |(5 : ℝ)| ≤ 2 ^ 500 := by norm_num [abs_of_pos]
  have h3 : 2 * |(1 : ℝ)| ≤ |(3 : ℝ)| := by norm_num [abs_of_pos]
  have h4 : (1 : ℝ) / 2 ^ 500 ≤ |(3 : ℝ)| := by
    rw [abs_of_pos (by norm_num : (0 : ℝ) < 3), div_le_iff₀ (by positivity)]
    have : (1 : ℝ) ≤ 2 ^ 500 := one_le_pow₀ (by norm_num)
    linarith
  have h5 : |(3 : ℝ)| ≤ 2 ^ 500 := by norm_num [abs_of_pos]
  exact ⟨fun x _ => Real.sqrt_nonneg x, h1, h2,
    ((reactive_power_unclamped Real.sqrt (fun x _ => Real.sqrt_nonneg x) 5 3).1 h1 h2).2.1,
    h3, h4, h5,
    ((reactive_power_unclamped Real.sqrt (fun x _ => Real.sqrt_nonneg x) 1 3).2.1 h3 h4 h5).2⟩

/-- C2 (counterexample): with apparent power 0 the division is performed:
active power 0 gives NaN and active power 1 gives plus infinity.  The cycle on
the all-zero signal (four mid-scale readings per channel, calibration 1) reports
the power factor NaN. -/
theorem power_factor_zero_apparent_not_guarded :
    calculate_power_factor (Dbl.fin (0 : ℝ)) (Dbl.fin 0) = Dbl.nan ∧
    calculate_power_factor (Dbl.fin (1 : ℝ)) (Dbl.fin 0) = Dbl.pinf ∧
    (metering_cycle Real.sqrt 4 (Dbl.fin 1) (Dbl.fin 1) (Dbl.fin 2048) (Dbl.fin 2048)
        (fun _ => Dbl.fin 0) (fun _ => Dbl.fin 0)
        (fun _ => 2048) (fun _ => 2048)).1.power_factor = Dbl.nan := by
  refine ⟨?_, ?_, ?_⟩
  · simp [calculate_power_factor, Dbl.fin_div_zero, Dbl.inf_of_sign]
  · simp [calculate_power_factor, Dbl.fin_div_zero, Dbl.inf_of_sign]
  · rw [metering_cycle_midscale Real.sqrt Real.sqrt_zero 4 (by decide)]

/-- C2 (amended): `calculate_power_factor` divides without a guard.  For finite
`apparent_power != 0` it returns `active_power / apparent_power`; for
`apparent_power = 0` it returns NaN when `active_power = 0` (the all-zero-signal
cycle) and an infinity when `active_power != 0`. -/
theorem power_factor_unguarded (P S : α) :
    (S ≠ 0 → calculate_power_factor (Dbl.fin P) (Dbl.fin S) = Dbl.fin (P / S)) ∧
    (calculate_power_factor (Dbl.fin (0 : α)) (Dbl.fin 0)).isNaN = true ∧
    (P ≠ 0 → (calculate_power_factor (Dbl.fin P) (Dbl.fin 0)).isInf = true) := by
  refine ⟨fun h => Dbl.fin_div_fin P S h, ?_, ?_⟩
  · simp [calculate_power_factor, Dbl.fin_div_zero, Dbl.inf_of_sign, Dbl.isNaN]
  · intro h
    rw [calculate_power_factor, Dbl.fin_div_zero]
    by_cases hp : 0 < P
    · simp [Dbl.inf_of_sign, h, hp, Dbl.isInf]
    · simp [Dbl.inf_of_sign, h, hp, Dbl.isInf]

/-- Witness of `power_factor_unguarded`: 3 / 4 on finite non-zero apparent
power, an infinity for 3 / 0. -/
theorem power_factor_unguarded_witness :
    (4 : ℚ) ≠ 0 ∧ calculate_power_factor (Dbl.fin (3 : ℚ)) (Dbl.fin 4) = Dbl.fin (3 / 4) ∧
      (calculate_power_factor (Dbl.fin (3 : ℚ)) (Dbl.fin 0)).isInf = true :=
  ⟨by norm_num, (power_factor_unguarded (3 : ℚ) 4).1 (by norm_num),
    (power_factor_unguarded (3 : ℚ) 4).2.2 (by norm_num)⟩

/-- C3 (counterexample): with every reading of converter input 1 equal to 0,
`current_get` ends the first cycle with offset `2048 * (4095/4096)^10000`.  In
the second cycle the first sample stored is `0 - (2048 + (0 - 2048) / 4096)`,
the value filtered from offset 2048; a call that started from the offset of the
end of the first cycle would have stored a different value. -/
theorem offset_not_carried_across_cycles :
    (current_loop (fun _ => 0)
        (main_init (fun _ => Dbl.fin (0 : ℝ)) (fun _ => Dbl.fin 0)).offset_current
        (fun _ => Dbl.fin 0) num_samples).offset
      = Dbl.fin (2048 * (4095 / 4096) ^ 10000) ∧
    (main_iteration Real.sqrt
        (main_iteration Real.sqrt (main_init (fun _ => Dbl.fin (0 : ℝ)) (fun _ => Dbl.fin 0))
          { adc1 := fun _ => 0, adc0 := fun _ => 0, now := 0, send_result := 0 }).1
        { adc1 := fun _ => 0, adc0 := fun _ => 0, now := 0, send_result := 0 }).1.current_samples 0
      = Dbl.fin (0 - (2048 + (0 - 2048) / 4096)) ∧
    (current_get Real.sqrt (fun _ => 0) num_samples current_calibration
        (Dbl.fin (2048 * (4095 / 4096) ^ 10000))
        (main_iteration Real.sqrt (main_init (fun _ => Dbl.fin (0 : ℝ)) (fun _ => Dbl.fin 0))
          { adc1 := fun _ => 0, adc0 := fun _ => 0, now := 0, send_result := 0
            }).1.current_samples).2 0
      ≠ (main_iteration Real.sqrt
          (main_iteration Real.sqrt (main_init (fun _ => Dbl.fin (0 : ℝ)) (fun _ => Dbl.fin 0))
            { adc1 := fun _ => 0, adc0 := fun _ => 0, now := 0, send_result := 0 }).1
          { adc1 := fun _ => 0, adc0 := fun _ => 0, now := 0, send_result := 0
            }).1.current_samples 0 := by
  have h1 : (current_loop (fun _ => 0)
      (main_init (fun _ => Dbl.fin (0 : ℝ)) (fun _ => Dbl.fin 0)).offset_current
      (fun _ => Dbl.fin 0) num_samples).offset = Dbl.fin (2048 * (4095 / 4096) ^ 10000) := by
    rw [(main_init_offset _ _).1, current_loop_fin, ema_offset_const]
    simp [num_samples]
  have h0 : (0 : ℕ) < num_samples := by decide
  have h2 : (main_iteration Real.sqrt
      (main_iteration Real.sqrt (main_init (fun _ => Dbl.fin (0 : ℝ)) (fun _ => Dbl.fin 0))
        { adc1 := fun _ => 0, adc0 := fun _ => 0, now := 0, send_result := 0 }).1
      { adc1 := fun _ => 0, adc0 := fun _ => 0, now := 0, send_result := 0 }).1.current_samples 0
      = Dbl.fin (0 - (2048 + (0 - 2048) / 4096)) := by
    rw [(main_iteration_calls _ _ _).2.1]
    have hoff : (main_iteration Real.sqrt
        (main_init (fun _ => Dbl.fin (0 : ℝ)) (fun _ => Dbl.fin 0))
        { adc1 := fun _ => 0, adc0 := fun _ => 0, now := 0, send_result := 0 }).1.offset_current
        = Dbl.fin 2048 := (main_init_offset _ _).1
    rw [hoff, current_get_samples, filled_fin _ _ _ _ _ h0]
    simp [filtered_sample, ema_offset]
  refine ⟨h1, h2, ?_⟩
  rw [h2, current_get_samples, filled_fin _ _ _ _ _ h0]
  intro h
  have h4 := Dbl.fin.inj h
  simp only [filtered_sample, ema_offset] at h4
  norm_num at h4

/-- C3 (amended): the offset is carried from sample to sample within one call
only.  `current_get` and `voltage_get` receive it by value and `main` never
assigns its two offset variables: in every iteration of the main loop, not only
the first, the two calls are the calls with starting offset 2048, so the RMS
values and the sample arrays of every cycle are those computed from the
mid-scale offset, whatever offset the previous cycle reached. -/
theorem offset_restarts_every_cycle (rt : α → α) (b1 b2 : ℕ → Dbl α) (ticks : List Tick)
    (t : Tick) :
    (main_run rt (main_init b1 b2) ticks).offset_current = Dbl.fin 2048 ∧
    (main_run rt (main_init b1 b2) ticks).offset_voltage = Dbl.fin 2048 ∧
    (main_iteration rt (main_run rt (main_init b1 b2) ticks) t).2.1.current_rms
      = (current_get rt t.adc1 num_samples current_calibration (Dbl.fin 2048)
          (main_run rt (main_init b1 b2) ticks).current_samples).1 ∧
    (main_iteration rt (main_run rt (main_init b1 b2) ticks) t).1.current_samples
      = (current_get rt t.adc1 num_samples current_calibration (Dbl.fin 2048)
          (main_run rt (main_init b1 b2) ticks).current_samples).2 ∧
    (main_iteration rt (main_run rt (main_init b1 b2) ticks) t).2.1.voltage_rms
      = (voltage_get rt t.adc0 num_samples voltage_calibration (Dbl.fin 2048)
          (main_run rt (main_init b1 b2) ticks).voltage_samples).1 ∧
    (main_iteration rt (main_run rt (main_init b1 b2) ticks) t).1.voltage_samples
      = (voltage_get rt t.adc0 num_samples voltage_calibration (Dbl.fin 2048)
          (main_run rt (main_init b1 b2) ticks).voltage_samples).2 ∧
    (∀ i, i < num_samples →
      (main_iteration rt (main_run rt (main_init b1 b2) ticks) t).1.current_samples i
        = Dbl.fin ((t.adc1 i : α) - ema_offset t.adc1 2048 (i + 1)) ∧
      (main_iteration rt (main_run rt (main_init b1 b2) ticks) t).1.voltage_samples i
        = Dbl.fin ((t.adc0 i : α) - ema_offset t.adc0 2048 (i + 1))) := by
  have h := main_run_offsets rt ticks (main_init b1 b2)
  have h0 := main_init_offset b1 b2
  have hc : (main_run rt (main_init b1 b2) ticks).offset_current = Dbl.fin 2048 :=
    h.1.trans h0.1
  have hv : (main_run rt (main_init b1 b2) ticks).offset_voltage = Dbl.fin 2048 :=
    h.2.trans h0.2
  have hm := main_iteration_calls rt (main_run rt (main_init b1 b2) ticks) t
  rw [hc, hv] at hm
  refine ⟨hc, hv, hm.1, hm.2.1, hm.2.2.1, hm.2.2.2, ?_⟩
  intro i hi
  rw [hm.2.1, hm.2.2.2, voltage_get_eq, current_get_samples, current_get_samples,
    filled_fin _ _ _ _ _ hi, filled_fin _ _ _ _ _ hi]
  exact ⟨rfl, rfl⟩

/-- Witness of `offset_restarts_every_cycle`: the second iteration of the main
loop, after a first one with all readings 0; entry 0 of the current samples. -/
theorem offset_restarts_every_cycle_witness :
    (0 < num_samples) ∧
    (main_iteration (fun x : ℚ => x)
      (main_run (fun x : ℚ => x) (main_init (fun _ => Dbl.nan) (fun _ => Dbl.nan))
        [{ adc1 := fun _ => 0, adc0 := fun _ => 0, now := 0, send_result := 0 }])
      { adc1 := fun _ => 4095, adc0 := fun _ => 0, now := 0, send_result := 0
        }).1.current_samples 0
      = Dbl.fin (((4095 : ℕ) : ℚ) - ema_offset (fun _ => 4095) 2048 (0 + 1)) :=
  ⟨by decide,
    ((offset_restarts_every_cycle (fun x : ℚ => x) (fun _ => Dbl.nan) (fun _ => Dbl.nan)
      [{ adc1 := fun _ => 0, adc0 := fun _ => 0, now := 0, send_result := 0 }]
      { adc1 := fun _ => 4095, adc0 := fun _ => 0, now := 0, send_result := 0 }).2.2.2.2.2.2 0
        (by decide)).1⟩

/-- C4: one pass of the sampling loop on raw sample `r` and offset `o` sets the
offset to `o + (r - o) / 4096` and stores `r` minus that updated offset; so
after a call on `N` samples entry `i < N` of the sample array is `r_i` minus the
offset folded over `r_0 .. r_i`.  Both for `current_get` and `voltage_get`. -/
theorem filter_uses_updated_offset (rt : α → α) (adc : ℕ → ℕ) (o : α) (buf : ℕ → Dbl α) :
    (∀ (r i : ℕ) (s : Dbl α),
      (current_step { offset := Dbl.fin o, sum := s, samples := buf } i r).offset
          = Dbl.fin (o + ((r : α) - o) / 4096) ∧
        (current_step { offset := Dbl.fin o, sum := s, samples := buf } i r).samples i
          = Dbl.fin ((r : α) - (o + ((r : α) - o) / 4096)) ∧
        (voltage_step { offset := Dbl.fin o, sum := s, samples := buf } i r).offset
          = Dbl.fin (o + ((r : α) - o) / 4096) ∧
        (voltage_step { offset := Dbl.fin o, sum := s, samples := buf } i r).samples i
          = Dbl.fin ((r : α) - (o + ((r : α) - o) / 4096))) ∧
    (∀ (N : ℕ) (c : Dbl α) (i : ℕ), i < N →
      (current_get rt adc N c (Dbl.fin o) buf).2 i
          = Dbl.fin ((adc i : α) - ema_offset adc o (i + 1)) ∧
        (voltage_get rt adc N c (Dbl.fin o) buf).2 i
          = Dbl.fin ((adc i : α) - ema_offset adc o (i + 1))) := by
  have h : (4096 : α) ≠ 0 := by norm_num
  constructor
  · intro r i s
    simp [voltage_step_eq, current_step, Dbl.ofNat, Dbl.fin_div_fin _ _ h]
  · intro N c i hi
    rw [voltage_get_eq]
    simp [current_get, current_loop_fin, filled, hi, filtered_sample]

/-- Witness of `filter_uses_updated_offset`: three samples 0, 4095, 2048 from
offset 2048, entry 1 of the array. -/
theorem filter_uses_updated_offset_witness :
    (1 < 3) ∧
      (current_get (fun x : ℚ => x) (fun k => [0, 4095, 2048].getD k 0) 3 (Dbl.fin 1)
          (Dbl.fin 2048) (fun _ => Dbl.nan)).2 1
        = Dbl.fin (((fun k => [0, 4095, 2048].getD k 0) 1 : ℚ)
            - ema_offset (fun k => [0, 4095, 2048].getD k 0) 2048 (1 + 1)) :=
  ⟨by decide, ((filter_uses_updated_offset (fun x : ℚ => x)
    (fun k => [0, 4095, 2048].getD k 0) 2048 (fun _ => Dbl.nan)).2 3 (Dbl.fin 1) 1
      (by decide)).1⟩

/-- C5: for `N > 0`, finite calibration `c` and finite starting offset,
`current_get` and `voltage_get` return `c * ((3283/1000) / 4096) *
sqrt((sum of the squares of the N filtered samples) / N)`, the sum ranging over
exactly the entries `0 .. N-1` written to the sample array in that call. -/
theorem rms_formula (rt : α → α) (adc : ℕ → ℕ) (N : ℕ) (hN : 0 < N) (c o : α)
    (buf : ℕ → Dbl α) :
    (∀ i, i < N →
      (current_get rt adc N (Dbl.fin c) (Dbl.fin o) buf).2 i
        = Dbl.fin (filtered_sample adc o i)) ∧
    (∀ i, N ≤ i → (current_get rt adc N (Dbl.fin c) (Dbl.fin o) buf).2 i = buf i) ∧
    (current_get rt adc N (Dbl.fin c) (Dbl.fin o) buf).1
      = Dbl.fin (c * ((3283 / 1000) / 4096)
          * rt ((∑ i in Finset.range N, filtered_sample adc o i ^ 2) / (N : α))) ∧
    voltage_get rt adc N (Dbl.fin c) (Dbl.fin o) buf
      = current_get rt adc N (Dbl.fin c) (Dbl.fin o) buf := by
  rw [voltage_get_eq, current_get_fin rt adc N hN, sum_squares_eq_sum]
  refine ⟨?_, ?_, rfl, rfl⟩
  · intro i hi
    simp [filled, hi]
  · intro i hi
    simp [filled, not_lt.mpr hi]

/-- Witness of `rms_formula`: two samples 0 and 4095 from offset 2048,
calibration 1. -/
theorem rms_formula_witness :
    (0 < 2) ∧
      (current_get (fun x : ℚ => x) (fun k => [0, 4095].getD k 0) 2 (Dbl.fin 1)
          (Dbl.fin 2048) (fun _ => Dbl.nan)).1
        = Dbl.fin (1 * ((3283 / 1000) / 4096)
          * (fun x : ℚ => x) ((∑ i in Finset.range 2,
              filtered_sample (fun k => [0, 4095].getD k 0) (2048 : ℚ) i ^ 2) / ((2 : ℕ) : ℚ))) :=
  ⟨by decide, (rms_formula (fun x : ℚ => x) (fun k => [0, 4095].getD k 0) 2 (by decide) 1 2048
    (fun _ => Dbl.nan)).2.2.1⟩

/-- C6 (counterexample): on one sample with filtered voltage 1 and filtered
current 1, `calculate_power` of the variants `current_voltage_sensor_backup` and
`examples_` returns 1, not the product of the two samples scaled by the
calibration ratios `1051.8 * 3.283 / 4096` and `51.61 * 3.283 / 4096`. -/
theorem backup_power_not_calibrated :
    Backup.calculate_power (fun _ => Dbl.fin (1 : ℚ)) (fun _ => Dbl.fin 1) 1 = Dbl.fin 1 ∧
    (Dbl.fin 1 : Dbl ℚ) ≠
      Dbl.fin ((1 / 1) * ((1 * (10518 / 10 * ((3283 / 1000) / 4096)))
        * (1 * (5161 / 100 * ((3283 / 1000) / 4096))))) ∧
    Backup.calculate_power (fun _ => Dbl.fin (1 : ℚ)) (fun _ => Dbl.fin 1) 1 ≠
      calculate_power (fun _ => Dbl.fin (1 : ℚ)) (fun _ => Dbl.fin 1) 1
        Backup.voltage_calibration current_calibration := by
  have h1 : Backup.calculate_power (fun _ => Dbl.fin (1 : ℚ)) (fun _ => Dbl.fin 1) 1
      = Dbl.fin 1 := by
    rw [backup_calculate_power_fin _ _ (fun _ => 1) (fun _ => 1) 1 (by decide)
      (fun _ _ => rfl) (fun _ _ => rfl)]
    norm_num
  refine ⟨h1, ?_, ?_⟩
  · intro h
    have h2 := Dbl.fin.inj h
    norm_num at h2
  · rw [h1, Backup.voltage_calibration, current_calibration,
      calculate_power_fin _ _ (fun _ => 1) (fun _ => 1) _ _ 1 (by decide)
        (fun _ _ => rfl) (fun _ _ => rfl)]
    intro h
    have h2 := Dbl.fin.inj h
    norm_num at h2

/-- C6 (amended): for `N > 0` and sample arrays whose first `N` entries are
finite, `calculate_power` of the variant `examples` returns the mean over `i <
N` of `(voltage_samples[i] * voltage_ratio) * (current_samples[i] *
current_ratio)`, each ratio being the calibration of the channel times
`(3283/1000) / 4096`; `calculate_power` of the variants
`current_voltage_sensor_backup` and `examples_` takes no calibration and returns
the mean of the unscaled products `voltage_samples[i] * current_samples[i]`. -/
theorem active_power_formula (vs cs : ℕ → Dbl α) (v c : ℕ → α) (vcal ccal : α) (N : ℕ)
    (hN : 0 < N) (hv : ∀ i, i < N → vs i = Dbl.fin (v i))
    (hc : ∀ i, i < N → cs i = Dbl.fin (c i)) :
    calculate_power vs cs N (Dbl.fin vcal) (Dbl.fin ccal)
      = Dbl.fin ((1 / (N : α)) * ∑ i in Finset.range N,
          (v i * (vcal * ((3283 / 1000) / 4096))) * (c i * (ccal * ((3283 / 1000) / 4096)))) ∧
    Backup.calculate_power vs cs N
      = Dbl.fin ((1 / (N : α)) * ∑ i in Finset.range N, v i * c i) := by
  rw [calculate_power_fin vs cs v c vcal ccal N hN hv hc,
    backup_calculate_power_fin vs cs v c N hN hv hc]
  constructor
  · congr 1
    ring
  · congr 1
    ring

/-- Witness of `active_power_formula`: two samples per channel, voltage 1 and
-1, current 2 and 3. -/
theorem active_power_formula_witness :
    (0 < 2) ∧
    Backup.calculate_power (fun i => Dbl.fin ([1, -1].getD i (0 : ℚ)))
        (fun i => Dbl.fin ([2, 3].getD i (0 : ℚ))) 2
      = Dbl.fin ((1 / ((2 : ℕ) : ℚ)) * ∑ i in Finset.range 2,
          [1, -1].getD i (0 : ℚ) * [2, 3].getD i (0 : ℚ)) :=
  ⟨by decide, (active_power_formula (fun i => Dbl.fin ([1, -1].getD i (0 : ℚ)))
    (fun i => Dbl.fin ([2, 3].getD i (0 : ℚ))) (fun i => [1, -1].getD i 0)
    (fun i => [2, 3].getD i 0) 1 1 2 (by decide) (fun _ _ => rfl) (fun _ _ => rfl)).2⟩

/-- C7: for `uint32_t` values `last_sent <= now`, the uplink block attempts a
send exactly when `now - last_sent > min_interval`, strictly: a difference equal
to `min_interval` does not fire.  With `last_sent = 1000` and `min_interval =
5000`, `now = 5999` does not fire and `now = 6001` fires. -/
theorem uplink_gate_strict (min_interval now last_sent : ℕ) (res : ℤ) (hle : last_sent ≤ now)
    (hnow : now < 4294967296) :
    (uplink_gate min_interval now last_sent = true ↔ min_interval < now - last_sent) ∧
    ((uplink_step min_interval last_sent now res).attempts = 1 ↔
      min_interval < now - last_sent) ∧
    ((uplink_step min_interval last_sent now res).attempts = 0 ↔
      now - last_sent ≤ min_interval) ∧
    (now - last_sent = min_interval →
      (uplink_step min_interval last_sent now res).attempts = 0) ∧
    (uplink_step 5000 1000 5999 res).attempts = 0 ∧
    (uplink_step 5000 1000 6001 res).attempts = 1 := by
  have hg := uplink_gate_iff min_interval now last_sent hle hnow
  have ha := uplink_step_attempts min_interval last_sent now res
  have h0 : (uplink_step min_interval last_sent now res).attempts = 0 ↔
      now - last_sent ≤ min_interval := by
    rw [ha.2, ← not_lt, ← hg]
    simp
  refine ⟨hg, ha.1.trans hg, h0, fun h => h0.mpr (le_of_eq h), ?_, ?_⟩
  · exact (uplink_step_attempts 5000 1000 5999 res).2.mpr (by decide)
  · exact (uplink_step_attempts 5000 1000 6001 res).1.mpr (by decide)

/-- Witness of `uplink_gate_strict`: interval 10000, last send at 20000, tick at
30000 (difference equal to the interval). -/
theorem uplink_gate_strict_witness :
    (20000 ≤ 30000) ∧ (30000 < 4294967296) ∧
      (uplink_step 10000 20000 30000 0).attempts = 0 :=
  ⟨by decide, by decide,
    (uplink_gate_strict 10000 30000 20000 0 (by decide) (by decide)).2.2.2.1 (by decide)⟩

/-- C8: starting from `last_message_time = 0`, on every non-decreasing sequence
of `uint32_t` tick timestamps any two ticks on which a send is attempted have
timestamps that differ by more than `min_interval` (and the first attempt is
later than `min_interval`). -/
theorem uplink_never_fires_twice_within_interval (min_interval : ℕ) (ticks : List (ℕ × ℤ))
    (hbound : ∀ t ∈ ticks, t.1 < 4294967296)
    (hsorted : List.Pairwise (fun a b : ℕ × ℤ => a.1 ≤ b.1) ticks) :
    List.Pairwise (fun a b => a + min_interval < b) (uplink_run min_interval 0 ticks) ∧
      ∀ x ∈ uplink_run min_interval 0 ticks, min_interval < x := by
  have h := uplink_run_spaced min_interval ticks 0
    (fun t ht => ⟨Nat.zero_le _, hbound t ht⟩) hsorted
  refine ⟨h.2, fun x hx => ?_⟩
  have := h.1 x hx
  omega

/-- Witness of `uplink_never_fires_twice_within_interval`: interval 5000 and
ticks at 1000, 5001, 6000, 10001, 10002; sends are attempted at 5001 and 10002. -/
theorem uplink_never_fires_twice_within_interval_witness :
    uplink_run 5000 0 [(1000, 0), (5001, -1), (6000, 0), (10001, 0), (10002, 0)]
        = [5001, 10002] ∧
      List.Pairwise (fun a b => a + 5000 < b)
        (uplink_run 5000 0 [(1000, 0), (5001, -1), (6000, 0), (10001, 0), (10002, 0)]) :=
  ⟨by decide, (uplink_never_fires_twice_within_interval 5000
    [(1000, 0), (5001, -1), (6000, 0), (10001, 0), (10002, 0)]
    (by decide) (by decide)).1⟩

/-- C9: on a 48-byte array the six `memcpy` calls of the main loop leave
exactly 48 bytes, the 8-byte images of `current_rms`, `voltage_rms`,
`active_power`, `apparent_power`, `reactive_power`, `power_factor` at byte
offsets 0, 8, 16, 24, 32, 40 in that order (whatever the array held before);
reading the six 8-byte fields back at those offsets gives the original six
64-bit patterns. -/
theorem payload_round_trip (payload : List ℕ) (r : ReportBits) (hlen : payload.length = 48)
    (h1 : r.adc_current_rms < 2 ^ 64) (h2 : r.adc_voltage_rms < 2 ^ 64)
    (h3 : r.active_power < 2 ^ 64) (h4 : r.apparent_power < 2 ^ 64)
    (h5 : r.reactive_power < 2 ^ 64) (h6 : r.power_factor < 2 ^ 64) :
    (build_payload payload r).length = 48 ∧
    build_payload payload r =
      double_bytes r.adc_current_rms ++ double_bytes r.adc_voltage_rms
        ++ double_bytes r.active_power ++ double_bytes r.apparent_power
        ++ double_bytes r.reactive_power ++ double_bytes r.power_factor ∧
    ((build_payload payload r).drop 0).take 8 = double_bytes r.adc_current_rms ∧
    ((build_payload payload r).drop 8).take 8 = double_bytes r.adc_voltage_rms ∧
    ((build_payload payload r).drop 16).take 8 = double_bytes r.active_power ∧
    ((build_payload payload r).drop 24).take 8 = double_bytes r.apparent_power ∧
    ((build_payload payload r).drop 32).take 8 = double_bytes r.reactive_power ∧
    ((build_payload payload r).drop 40).take 8 = double_bytes r.power_factor ∧
    read_double (build_payload payload r) 0 = r.adc_current_rms ∧
    read_double (build_payload payload r) 8 = r.adc_voltage_rms ∧
    read_double (build_payload payload r) 16 = r.active_power ∧
    read_double (build_payload payload r) 24 = r.apparent_power ∧
    read_double (build_payload payload r) 32 = r.reactive_power ∧
    read_double (build_payload payload r) 40 = r.power_factor := by
  have hl := double_bytes_length
  have s1 : ∀ post : List ℕ, ((double_bytes r.adc_current_rms ++ post).drop 0).take 8
      = double_bytes r.adc_current_rms := fun post => by
    have := field_slice [] (double_bytes r.adc_current_rms) post 0 rfl (hl _)
    simpa using this
  have s2 := fun post => field_slice (double_bytes r.adc_current_rms)
    (double_bytes r.adc_voltage_rms) post 8 (hl _) (hl _)
  have s3 := fun post => field_slice
    (double_bytes r.adc_current_rms ++ double_bytes r.adc_voltage_rms)
    (double_bytes r.active_power) post 16 (by simp [hl]) (hl _)
  have s4 := fun post => field_slice
    (double_bytes r.adc_current_rms ++ double_bytes r.adc_voltage_rms
      ++ double_bytes r.active_power)
    (double_bytes r.apparent_power) post 24 (by simp [hl]) (hl _)
  have s5 := fun post => field_slice
    (double_bytes r.adc_current_rms ++ double_bytes r.adc_voltage_rms
      ++ double_bytes r.active_power ++ double_bytes r.apparent_power)
    (double_bytes r.reactive_power) post 32 (by simp [hl]) (hl _)
  have s6 := field_slice
    (double_bytes r.adc_current_rms ++ double_bytes r.adc_voltage_rms
      ++ double_bytes r.active_power ++ double_bytes r.apparent_power
      ++ double_bytes r.reactive_power)
    (double_bytes r.power_factor) [] 40 (by simp [hl]) (hl _)
  have e := build_payload_eq payload r hlen
  have f1 : ((build_payload payload r).drop 0).take 8 = double_bytes r.adc_current_rms := by
    rw [e]
    simp only [List.append_assoc]
    exact s1 _
  have f2 : ((build_payload payload r).drop 8).take 8 = double_bytes r.adc_voltage_rms := by
    rw [e]
    have := s2 (double_bytes r.active_power ++ double_bytes r.apparent_power
      ++ double_bytes r.reactive_power ++ double_bytes r.power_factor)
    simpa only [List.append_assoc] using this
  have f3 : ((build_payload payload r).drop 16).take 8 = double_bytes r.active_power := by
    rw [e]
    have := s3 (double_bytes r.apparent_power
      ++ double_bytes r.reactive_power ++ double_bytes r.power_factor)
    simpa only [List.append_assoc] using this
  have f4 : ((build_payload payload r).drop 24).take 8 = double_bytes r.apparent_power := by
    rw [e]
    have := s4 (double_bytes r.reactive_power ++ double_bytes r.power_factor)
    simpa only [List.append_assoc] using this
  have f5 : ((build_payload payload r).drop 32).take 8 = double_bytes r.reactive_power := by
    rw [e]
    have := s5 (double_bytes r.power_factor)
    simpa only [List.append_assoc] using this
  have f6 : ((build_payload payload r).drop 40).take 8 = double_bytes r.power_factor := by
    rw [e]
    simpa only [List.append_nil] using s6
  have b1 : r.adc_current_rms < 18446744073709551616 := by simpa using h1
  have b2 : r.adc_voltage_rms < 18446744073709551616 := by simpa using h2
  have b3 : r.active_power < 18446744073709551616 := by simpa using h3
  have b4 : r.apparent_power < 18446744073709551616 := by simpa using h4
  have b5 : r.reactive_power < 18446744073709551616 := by simpa using h5
  have b6 : r.power_factor < 18446744073709551616 := by simpa using h6
  refine ⟨?_, e, f1, f2, f3, f4, f5, f6, ?_, ?_, ?_, ?_, ?_, ?_⟩
  · rw [e]
    simp [hl]
  · rw [read_double, f1, read_bytes_double_bytes _ b1]
  · rw [read_double, f2, read_bytes_double_bytes _ b2]
  · rw [read_double, f3, read_bytes_double_bytes _ b3]
  · rw [read_double, f4, read_bytes_double_bytes _ b4]
  · rw [read_double, f5, read_bytes_double_bytes _ b5]
  · rw [read_double, f6, read_bytes_double_bytes _ b6]

/-- Witness of `payload_round_trip`: an all-zero array and the bit patterns of
1.0, 2.0, 0.5, -1.0, 0.0 and NaN. -/
theorem payload_round_trip_witness :
    (List.replicate 48 0).length = 48 ∧
    read_double (build_payload (List.replicate 48 0)
      { adc_current_rms := 0x3FF0000000000000, adc_voltage_rms := 0x4000000000000000,
        active_power := 0x3FE0000000000000, apparent_power := 0xBFF0000000000000,
        reactive_power := 0, power_factor := 0x7FF8000000000000 }) 40
      = 0x7FF8000000000000 :=
  ⟨by decide, (payload_round_trip (List.replicate 48 0)
    { adc_current_rms := 0x3FF0000000000000, adc_voltage_rms := 0x4000000000000000,
      active_power := 0x3FE0000000000000, apparent_power := 0xBFF0000000000000,
      reactive_power := 0, power_factor := 0x7FF8000000000000 }
    (by decide) (by norm_num) (by norm_num) (by norm_num) (by norm_num) (by norm_num)
    (by norm_num)).2.2.2.2.2.2.2.2.2.2.2.2.2⟩

/-- C10: for `N > 0`, if every raw sample of both channels is the mid-scale
value 2048 and both offsets start at 2048, then every filtered sample is 0 and
the cycle yields `current_rms = 0`, `voltage_rms = 0`, `active_power = 0` and
`apparent_power = 0`, for any finite calibration constants (the square root
maps 0 to 0). -/
theorem zero_signal_cycle (rt : α → α) (hrt : rt 0 = 0) (N : ℕ) (hN : 0 < N) (ccal vcal : α)
    (b1 b2 : ℕ → Dbl α) :
    (∀ i, i < N →
      (metering_cycle rt N (Dbl.fin ccal) (Dbl.fin vcal) (Dbl.fin 2048) (Dbl.fin 2048) b1 b2
          (fun _ => 2048) (fun _ => 2048)).2.1 i = Dbl.fin 0 ∧
      (metering_cycle rt N (Dbl.fin ccal) (Dbl.fin vcal) (Dbl.fin 2048) (Dbl.fin 2048) b1 b2
          (fun _ => 2048) (fun _ => 2048)).2.2 i = Dbl.fin 0) ∧
    (metering_cycle rt N (Dbl.fin ccal) (Dbl.fin vcal) (Dbl.fin 2048) (Dbl.fin 2048) b1 b2
        (fun _ => 2048) (fun _ => 2048)).1.current_rms = Dbl.fin 0 ∧
    (metering_cycle rt N (Dbl.fin ccal) (Dbl.fin vcal) (Dbl.fin 2048) (Dbl.fin 2048) b1 b2
        (fun _ => 2048) (fun _ => 2048)).1.voltage_rms = Dbl.fin 0 ∧
    (metering_cycle rt N (Dbl.fin ccal) (Dbl.fin vcal) (Dbl.fin 2048) (Dbl.fin 2048) b1 b2
        (fun _ => 2048) (fun _ => 2048)).1.active_power = Dbl.fin 0 ∧
    (metering_cycle rt N (Dbl.fin ccal) (Dbl.fin vcal) (Dbl.fin 2048) (Dbl.fin 2048) b1 b2
        (fun _ => 2048) (fun _ => 2048)).1.apparent_power = Dbl.fin 0 := by
  rw [metering_cycle_midscale rt hrt N hN ccal vcal b1 b2]
  refine ⟨fun i hi => ?_, rfl, rfl, rfl, rfl⟩
  simp [hi]

/-- Witness of `zero_signal_cycle`: `N = 4`, calibration scale 1.0 on both
channels, exact real square root. -/
theorem zero_signal_cycle_witness :
    Real.sqrt 0 = 0 ∧ (0 < 4) ∧
    (metering_cycle Real.sqrt 4 (Dbl.fin 1) (Dbl.fin 1) (Dbl.fin 2048) (Dbl.fin 2048)
        (fun _ => Dbl.nan) (fun _ => Dbl.nan)
        (fun _ => 2048) (fun _ => 2048)).1.current_rms = Dbl.fin 0 :=
  ⟨Real.sqrt_zero, by decide,
    (zero_signal_cycle Real.sqrt Real.sqrt_zero 4 (by decide) 1 1
      (fun _ => Dbl.nan) (fun _ => Dbl.nan)).2.1⟩

/-- C11: on a constant raw input `X` and from any finite starting offset `o_0`,
the offset after `n` passes of the filter loop satisfies `o_n - X = (o_0 - X) *
(4095/4096)^n`; the distance `|o_n - X|` never grows and shrinks strictly while
`o_n != X`; `o_n` stays on the side of `X` where `o_0` lies; `o_n` converges to
`X` and the stored filtered sample `X - o_(n+1)` converges to 0. -/
theorem offset_converges_on_constant_input (X : ℕ) (o : ℝ) (buf : ℕ → Dbl ℝ) :
    (∀ n, (current_loop (fun _ => X) (Dbl.fin o) buf n).offset
        = Dbl.fin (ema_offset (fun _ => X) o n)) ∧
    (∀ n, (current_loop (fun _ => X) (Dbl.fin o) buf (n + 1)).samples n
        = Dbl.fin ((X : ℝ) - ema_offset (fun _ => X) o (n + 1))) ∧
    (∀ n, ema_offset (fun _ => X) o n - (X : ℝ) = (o - (X : ℝ)) * (4095 / 4096) ^ n) ∧
    (∀ n, |ema_offset (fun _ => X) o (n + 1) - (X : ℝ)|
        ≤ |ema_offset (fun _ => X) o n - (X : ℝ)|) ∧
    (∀ n, ema_offset (fun _ => X) o n ≠ (X : ℝ) →
      |ema_offset (fun _ => X) o (n + 1) - (X : ℝ)|
        < |ema_offset (fun _ => X) o n - (X : ℝ)|) ∧
    (o ≤ (X : ℝ) → ∀ n, ema_offset (fun _ => X) o n ≤ (X : ℝ)) ∧
    ((X : ℝ) ≤ o → ∀ n, (X : ℝ) ≤ ema_offset (fun _ => X) o n) ∧
    Filter.Tendsto (fun n => ema_offset (fun _ => X) o n) Filter.atTop (nhds (X : ℝ)) ∧
    Filter.Tendsto (fun n => (X : ℝ) - ema_offset (fun _ => X) o (n + 1)) Filter.atTop
      (nhds 0) := by
  have hq0 : (0 : ℝ) ≤ 4095 / 4096 := by norm_num
  have habs : ∀ n, |ema_offset (fun _ => X) o (n + 1) - (X : ℝ)|
      = |ema_offset (fun _ => X) o n - (X : ℝ)| * (4095 / 4096) := by
    intro n
    rw [ema_offset_const_step, abs_mul, abs_of_nonneg hq0]
  have hlim := ema_offset_const_tendsto X o
  refine ⟨?_, ?_, ?_, ?_, ?_, ?_, ?_, hlim, ?_⟩
  · intro n
    rw [current_loop_fin]
  · intro n
    rw [current_loop_fin]
    simp [filled, filtered_sample]
  · intro n
    rw [ema_offset_const]
    ring
  · intro n
    rw [habs n]
    have := abs_nonneg (ema_offset (fun _ => X) o n - (X : ℝ))
    nlinarith
  · intro n hne
    rw [habs n]
    have : 0 < |ema_offset (fun _ => X) o n - (X : ℝ)| := abs_pos.mpr (sub_ne_zero.mpr hne)
    nlinarith
  · intro h n
    have hp : (0 : ℝ) ≤ (4095 / 4096) ^ n := pow_nonneg hq0 n
    rw [ema_offset_const]
    nlinarith
  · intro h n
    have hp : (0 : ℝ) ≤ (4095 / 4096) ^ n := pow_nonneg hq0 n
    rw [ema_offset_const]
    nlinarith
  · have h1 := (hlim.comp (Filter.tendsto_add_atTop_nat 1)).const_sub (X : ℝ)
    simpa using h1

/-- Witness of `offset_converges_on_constant_input`: constant input 3000 from
the mid-scale offset 2048, which differs from 3000; first step. -/
theorem offset_converges_on_constant_input_witness :
    ema_offset (fun _ => 3000) (2048 : ℝ) 0 ≠ ((3000 : ℕ) : ℝ) ∧
    |ema_offset (fun _ => 3000) (2048 : ℝ) (0 + 1) - ((3000 : ℕ) : ℝ)|
      < |ema_offset (fun _ => 3000) (2048 : ℝ) 0 - ((3000 : ℕ) : ℝ)| :=
  have h : ema_offset (fun _ => 3000) (2048 : ℝ) 0 ≠ ((3000 : ℕ) : ℝ) := by
    simp [ema_offset]
  ⟨h, (offset_converges_on_constant_input 3000 2048 (fun _ => Dbl.nan)).2.2.2.2.1 0 h⟩

/-- C12: if the offset starts inside `[0, 4095]` and every raw sample lies in
`[0, 4095]`, then after every pass of the loop of `current_get` / `voltage_get`
the offset is a finite value inside `[0, 4095]`; in the main loop, where every
call starts from the mid-scale offset 2048, this holds after every sample of
every call. -/
theorem offset_stays_in_range (rt : α → α) (adc : ℕ → ℕ) (hadc : ∀ k, adc k ≤ 4095) (o : α)
    (h0 : 0 ≤ o) (h1 : o ≤ 4095) (buf b1 b2 : ℕ → Dbl α) (ticks : List Tick) (n : ℕ) :
    (∃ x : α, (current_loop adc (Dbl.fin o) buf n).offset = Dbl.fin x ∧ 0 ≤ x ∧ x ≤ 4095) ∧
    (∃ x : α, (voltage_loop adc (Dbl.fin o) buf n).offset = Dbl.fin x ∧ 0 ≤ x ∧ x ≤ 4095) ∧
    (∃ x : α, (current_loop adc (main_run rt (main_init b1 b2) ticks).offset_current
        (main_run rt (main_init b1 b2) ticks).current_samples n).offset = Dbl.fin x
          ∧ 0 ≤ x ∧ x ≤ 4095) ∧
    (∃ x : α, (voltage_loop adc (main_run rt (main_init b1 b2) ticks).offset_voltage
        (main_run rt (main_init b1 b2) ticks).voltage_samples n).offset = Dbl.fin x
          ∧ 0 ≤ x ∧ x ≤ 4095) := by
  have hr := ema_offset_range adc hadc o h0 h1 n
  have hm := ema_offset_range adc hadc (2048 : α) (by norm_num) (by norm_num) n
  have hoff := main_run_offsets rt ticks (main_init b1 b2)
  have hinit := main_init_offset b1 b2
  refine ⟨⟨_, ?_, hr⟩, ⟨_, ?_, hr⟩, ⟨_, ?_, hm⟩, ⟨_, ?_, hm⟩⟩
  · rw [current_loop_fin]
  · rw [voltage_loop_eq, current_loop_fin]
  · rw [hoff.1, hinit.1, current_loop_fin]
  · rw [voltage_loop_eq, hoff.2, hinit.2, current_loop_fin]

/-- Witness of `offset_stays_in_range`: readings alternating between 0 and
4095, offset starting at 4095, after three samples. -/
theorem offset_stays_in_range_witness :
    (∀ k, (fun k => if k % 2 = 0 then 0 else 4095) k ≤ 4095) ∧ (0 : ℚ) ≤ 4095 ∧
    ∃ x : ℚ, (current_loop (fun k => if k % 2 = 0 then 0 else 4095) (Dbl.fin 4095)
        (fun _ => Dbl.nan) 3).offset = Dbl.fin x ∧ 0 ≤ x ∧ x ≤ 4095 :=
  have hadc : ∀ k, (fun k => if k % 2 = 0 then 0 else 4095) k ≤ 4095 := by
    intro k
    by_cases hk : k % 2 = 0 <;> simp [hk]
  ⟨hadc, by norm_num,
    (offset_stays_in_range (fun x : ℚ => x) (fun k => if k % 2 = 0 then 0 else 4095) hadc 4095
      (by norm_num) (le_refl _) (fun _ => Dbl.nan) (fun _ => Dbl.nan) (fun _ => Dbl.nan) [] 3).1⟩

/-- C13: on a tick where the gate fires the uplink block calls the send
primitive exactly once and sets the timer to `now`, whatever the send returns (a
negative result is only logged), and any later tick within `min_interval` of
that attempt sends nothing; on a tick where the gate does not fire nothing is
sent and the timer is unchanged.  The main loop runs this block once per
iteration with the interval 10000. -/
theorem uplink_one_attempt_per_fire (min_interval last now : ℕ) (res : ℤ) :
    (uplink_gate min_interval now last = true →
      (uplink_step min_interval last now res).attempts = 1 ∧
      (uplink_step min_interval last now res).last_message_time = now ∧
      ((uplink_step min_interval last now res).logged_failure = true ↔ res < 0) ∧
      ∀ (later : ℕ) (res2 : ℤ), now ≤ later → later < 4294967296 →
        later - now ≤ min_interval →
        (uplink_step min_interval (uplink_step min_interval last now res).last_message_time
          later res2).attempts = 0) ∧
    (uplink_gate min_interval now last = false →
      (uplink_step min_interval last now res).attempts = 0 ∧
      (uplink_step min_interval last now res).last_message_time = last ∧
      (uplink_step min_interval last now res).logged_failure = false) ∧
    (∀ (rt : α → α) (st : MainState α) (t : Tick),
      (main_iteration rt st t).2.2 = uplink_step 10000 st.last_message_time t.now t.send_result ∧
      (main_iteration rt st t).1.last_message_time
        = (uplink_step 10000 st.last_message_time t.now t.send_result).last_message_time) := by
  refine ⟨?_, ?_, ?_⟩
  · intro h
    rw [uplink_step_fire min_interval last now res h]
    refine ⟨rfl, rfl, by simp, ?_⟩
    intro later res2 hle hlt hd
    have hg : uplink_gate min_interval later now = false := by
      have := uplink_gate_iff min_interval later now hle hlt
      cases hc : uplink_gate min_interval later now
      · rfl
      · have := this.mp hc
        omega
    exact (uplink_step_attempts min_interval now later res2).2.mpr hg
  · intro h
    rw [uplink_step_idle min_interval last now res h]
    exact ⟨rfl, rfl, rfl⟩
  · intro rt st t
    exact ⟨rfl, rfl⟩

/-- Witness of `uplink_one_attempt_per_fire`: interval 10000, timer at 0, a
failed send at 10001, then a tick at 20001. -/
theorem uplink_one_attempt_per_fire_witness :
    uplink_gate 10000 10001 0 = true ∧
    (uplink_step 10000 0 10001 (-1)).attempts = 1 ∧
    (uplink_step 10000 0 10001 (-1)).last_message_time = 10001 ∧
    (uplink_step 10000 (uplink_step 10000 0 10001 (-1)).last_message_time 20001 0).attempts
      = 0 :=
  ⟨by decide,
    ((uplink_one_attempt_per_fire (α := ℚ) 10000 0 10001 (-1)).1 (by decide)).1,
    ((uplink_one_attempt_per_fire (α := ℚ) 10000 0 10001 (-1)).1 (by decide)).2.1,
    ((uplink_one_attempt_per_fire (α := ℚ) 10000 0 10001 (-1)).1 (by decide)).2.2.2 20001 0
      (by decide) (by decide) (by decide)⟩

/-- C15: in the variants `current_voltage_sensor_backup` and `examples_`, with
the calibrations 51.61 and 1051.8, `N > 0` and exact real arithmetic, if the
voltage and current sample buffers are equal and not all zero then the active
power is strictly greater than the apparent power, the radicand `apparent_power^2
- active_power^2` is strictly negative (so `calculate_reactive_power` returns
NaN) and the power factor exceeds 1; both for an arbitrary finite buffer and for
a whole metering cycle whose two channels read the same samples. -/
theorem uncalibrated_in_phase_active_exceeds_apparent (N : ℕ) (hN : 0 < N) :
    (∀ f : ℕ → ℝ, (∃ i, i < N ∧ f i ≠ 0) → ∃ P S : ℝ,
      Backup.calculate_power (fun i => Dbl.fin (f i)) (fun i => Dbl.fin (f i)) N
        = Dbl.fin P ∧
      calculate_apparent_power
        (Dbl.fin ((10518 / 10) * ((3283 / 1000) / 4096)
          * Real.sqrt ((∑ i in Finset.range N, f i * f i) / (N : ℝ))))
        (Dbl.fin ((5161 / 100) * ((3283 / 1000) / 4096)
          * Real.sqrt ((∑ i in Finset.range N, f i * f i) / (N : ℝ)))) = Dbl.fin S ∧
      S < P ∧ S * S - P * P < 0 ∧
      calculate_reactive_power Real.sqrt (Dbl.fin S) (Dbl.fin P) = Dbl.nan ∧
      calculate_power_factor (Dbl.fin P) (Dbl.fin S) = Dbl.fin (P / S) ∧ 1 < P / S) ∧
    (∀ (adc : ℕ → ℕ) (o : ℝ) (b1 b2 : ℕ → Dbl ℝ),
      (∃ i, i < N ∧ filtered_sample adc o i ≠ 0) → ∃ P S : ℝ,
      (Backup.metering_cycle Real.sqrt N current_calibration Backup.voltage_calibration
        (Dbl.fin o) (Dbl.fin o) b1 b2 adc adc).1.active_power = Dbl.fin P ∧
      (Backup.metering_cycle Real.sqrt N current_calibration Backup.voltage_calibration
        (Dbl.fin o) (Dbl.fin o) b1 b2 adc adc).1.apparent_power = Dbl.fin S ∧
      S < P ∧ S * S - P * P < 0 ∧
      (Backup.metering_cycle Real.sqrt N current_calibration Backup.voltage_calibration
        (Dbl.fin o) (Dbl.fin o) b1 b2 adc adc).1.reactive_power = Dbl.nan ∧
      (Backup.metering_cycle Real.sqrt N current_calibration Backup.voltage_calibration
        (Dbl.fin o) (Dbl.fin o) b1 b2 adc adc).1.power_factor = Dbl.fin (P / S) ∧
      1 < P / S) := by
  constructor
  · intro f hne
    have hM := mean_square_pos f N hN hne
    have hS := in_phase_apparent_lt_active _ hM
    have ht := power_triangle_of_lt _ _ hS.1 hS.2
    exact ⟨_, _, backup_calculate_power_fin _ _ f f N hN (fun _ _ => rfl) (fun _ _ => rfl),
      rfl, hS.2, ht.1, ht.2.1, ht.2.2.1, ht.2.2.2⟩
  · intro adc o b1 b2 hne
    have hM := mean_square_pos (filtered_sample adc o) N hN hne
    have hS := in_phase_apparent_lt_active _ hM
    have ht := power_triangle_of_lt _ _ hS.1 hS.2
    rw [current_calibration, Backup.voltage_calibration,
      backup_metering_cycle_fin Real.sqrt N hN _ _ o o b1 b2 adc adc, sum_squares_eq_sum_mul]
    exact ⟨_, _, rfl, rfl, hS.2, ht.1, ht.2.1, ht.2.2.1, ht.2.2.2⟩

/-- Witness of `uncalibrated_in_phase_active_exceeds_apparent`: one sample, the
same reading 0 on both channels, offsets starting at 2048. -/
theorem uncalibrated_in_phase_active_exceeds_apparent_witness :
    (0 < 1) ∧ (∃ i, i < 1 ∧ filtered_sample (fun _ => 0) (2048 : ℝ) i ≠ 0) ∧
    (Backup.metering_cycle Real.sqrt 1 current_calibration Backup.voltage_calibration
      (Dbl.fin 2048) (Dbl.fin 2048) (fun _ => Dbl.nan) (fun _ => Dbl.nan)
      (fun _ => 0) (fun _ => 0)).1.reactive_power = Dbl.nan := by
  have hne : ∃ i, i < 1 ∧ filtered_sample (fun _ => 0) (2048 : ℝ) i ≠ 0 := by
    refine ⟨0, by decide, ?_⟩
    simp only [filtered_sample, ema_offset]
    norm_num
  obtain ⟨P, S, _, _, _, _, h5, _⟩ :=
    (uncalibrated_in_phase_active_exceeds_apparent 1 (by decide)).2 (fun _ => 0) 2048
      (fun _ => Dbl.nan) (fun _ => Dbl.nan) hne
  exact ⟨by decide, hne, h5⟩

/-- C16: the elapsed time of the uplink gate is `(now - last_message_time) mod
2^32`: for every `last_message_time` and every true elapsed time `d < 2^32`,
with `now = (last_message_time + d) mod 2^32` the computed difference is `d` and
a send is attempted iff `d > min_interval`, also when the millisecond clock has
wrapped around since the last send. -/
theorem uplink_gate_survives_wraparound (min_interval last d : ℕ) (res : ℤ)
    (hd : d < 4294967296) :
    sub32 ((last + d) % 4294967296) last = d ∧
    (uplink_gate min_interval ((last + d) % 4294967296) last = true ↔ min_interval < d) ∧
    ((uplink_step min_interval last ((last + d) % 4294967296) res).attempts = 1 ↔
      min_interval < d) ∧
    ((uplink_step min_interval last ((last + d) % 4294967296) res).attempts = 0 ↔
      d ≤ min_interval) := by
  have hs := sub32_wrap last d hd
  have hg : uplink_gate min_interval ((last + d) % 4294967296) last = true ↔
      min_interval < d := by
    simp [uplink_gate, hs]
  have ha := uplink_step_attempts min_interval last ((last + d) % 4294967296) res
  refine ⟨hs, hg, ha.1.trans hg, ?_⟩
  rw [ha.2, ← not_lt, ← hg]
  simp

/-- Witness of `uplink_gate_survives_wraparound`: last send 6 ms before the
clock wraps, 10001 ms elapsed, interval 10000: the tick at 9995 sends. -/
theorem uplink_gate_survives_wraparound_witness :
    (10001 < 4294967296) ∧ (4294967290 + 10001) % 4294967296 = 9995 ∧
    (uplink_step 10000 4294967290 ((4294967290 + 10001) % 4294967296) 0).attempts = 1 :=
  ⟨by decide, by decide,
    (uplink_gate_survives_wraparound 10000 4294967290 10001 0 (by decide)).2.2.1.mpr
      (by decide)⟩

end Freedm
